import Mathlib

/-
Verification of the routing engine of the KPR campus map repository.

The engine lives in one TypeScript module exporting `getShortestPath`
together with its helpers (`calculateDistance`, `calculateManhattanDistance`,
`linePassesThroughRoom`, `isPathObstructed`, `createGridBasedPath`,
`findRouteThroughWaypoints`, `findNearestWaypoint`).  The definitions below
are a shallow embedding of that module:

* coordinates are rationals (the source holds JS numbers; every comparison
  the engine performs on raw coordinates is exact, so rationals model them
  faithfully);
* Euclidean distances are real numbers (`Real.sqrt`), which makes the
  Dijkstra part of the embedding noncomputable; the square-root-free
  comparisons the other helpers perform are expressed over the rationals and
  proved equivalent to the source's real-valued formulas
  (`linePassesThroughRoom_spec`, `findNearestWaypoint` uses `distSq` with
  `distSq_lt_iff_calculateDistance_lt`);
* the source's `while` loops become fuel-indexed recursions; the fuel given
  at the call sites is proved sufficient where a claim depends on it;
* JS truthiness of the reconstruction loop's `while (currentId)` is modelled
  explicitly: `null` and the empty string both stop the loop.
-/

namespace KPRCampusMap

/-- Kind of a node, the source's union type `"room" | "waypoint" | "entrance" | "stairs"`. -/
inductive RoomType where
  | room : RoomType
  | waypoint : RoomType
  | entrance : RoomType
  | stairs : RoomType
deriving DecidableEq, Repr

/-- The source's `Room` interface: id, display name, position, connection ids, kind. -/
structure Room where
  id : String
  name : String
  x : ℚ
  y : ℚ
  connections : List String
  type : RoomType
deriving DecidableEq, Repr

/-- Squared Euclidean distance between two rooms, a rational.  The source's
`calculateDistance` is the real square root of this quantity; the helpers that
only ever compare single distances are embedded through `distSq`, which is
order-equivalent (`distSq_lt_iff_calculateDistance_lt`). -/
def distSq (room1 room2 : Room) : ℚ :=
  (room1.x - room2.x) ^ 2 + (room1.y - room2.y) ^ 2

/-- The source's `calculateDistance`: Euclidean distance
`Math.sqrt((x1-x2)^2 + (y1-y2)^2)`. -/
noncomputable def calculateDistance (room1 room2 : Room) : ℝ :=
  Real.sqrt (((room1.x - room2.x : ℚ) : ℝ) ^ 2 + ((room1.y - room2.y : ℚ) : ℝ) ^ 2)

/-- The source's `calculateManhattanDistance`: `|x1-x2| + |y1-y2|` (exact in ℚ). -/
def calculateManhattanDistance (room1 room2 : Room) : ℚ :=
  |room1.x - room2.x| + |room1.y - room2.y|

/-- The source's `linePassesThroughRoom`.  It computes `A = x1-x2`, `B = y1-y2`,
`C = x1*y2 - y1*x2` and returns `|A*roomX + B*roomY + C| / sqrt(A^2+B^2) < roomRadius`.
The division-by-square-root comparison is embedded square-root-free over ℚ;
`linePassesThroughRoom_spec` proves it equal to the source's real-valued test
(for `A = B = 0` the source divides by zero, yielding `NaN < r = false`, which
the guard `0 < A^2 + B^2` reproduces; for `roomRadius <= 0` both are false).
Every call site of the source uses the default radius 20, passed explicitly here. -/
def linePassesThroughRoom (x1 y1 x2 y2 roomX roomY roomRadius : ℚ) : Bool :=
  let A := x1 - x2
  let B := y1 - y2
  let C := x1 * y2 - y1 * x2
  let num := A * roomX + B * roomY + C
  decide (0 < A ^ 2 + B ^ 2 ∧ 0 < roomRadius ∧ num ^ 2 < roomRadius ^ 2 * (A ^ 2 + B ^ 2))

/-- The source's `isPathObstructed`: some room other than the endpoints and not a
waypoint satisfies `linePassesThroughRoom` (radius 20) against the start-end line. -/
def isPathObstructed (start endRoom : Room) (allRooms : List Room) : Bool :=
  allRooms.any fun room =>
    if room.id = start.id ∨ room.id = endRoom.id ∨ room.type = RoomType.waypoint then false
    else linePassesThroughRoom start.x start.y endRoom.x endRoom.y room.x room.y 20

/-- The source's `findNearestWaypoint`: `null` on an empty list, else the first
waypoint of minimal Euclidean distance (strict improvement scan).  Distances are
compared through `distSq`, which orders pairs exactly as `calculateDistance` does. -/
def findNearestWaypoint (room : Room) (waypoints : List Room) : Option Room :=
  match waypoints with
  | [] => none
  | w0 :: rest =>
      some (rest.foldl (fun nearest w =>
        if distSq room w < distSq room nearest then w else nearest) w0)

/-- The source's `findRouteThroughWaypoints`: filter waypoints by the 1.5x
Manhattan detour-inflation bound, sort ascending by the two-leg Manhattan sum
(JS `sort` is stable; `mergeSort` matches), return `[start, w, end]` for the
first candidate with both legs unobstructed, else the synthesized corner at
`(end.x, start.y)`. -/
def findRouteThroughWaypoints (start endRoom : Room) (waypoints : List Room)
    (allRooms : List Room) : List Room :=
  let potentialWaypoints := waypoints.filter fun w =>
    decide (calculateManhattanDistance start w + calculateManhattanDistance w endRoom <
      calculateManhattanDistance start endRoom * 1.5)
  let sorted := potentialWaypoints.mergeSort fun a b =>
    decide (calculateManhattanDistance start a + calculateManhattanDistance a endRoom ≤
      calculateManhattanDistance start b + calculateManhattanDistance b endRoom)
  match sorted.find? (fun w =>
      !isPathObstructed start w allRooms && !isPathObstructed w endRoom allRooms) with
  | some waypoint => [start, waypoint, endRoom]
  | none =>
      [start,
       ⟨"corner-" ++ start.id ++ "-" ++ endRoom.id, "Corner", endRoom.x, start.y, [],
        RoomType.waypoint⟩,
       endRoom]

/-- The blocking test of the source's horizontal leg: a non-waypoint room other
than the endpoints with `x` strictly between `start.x` and the target x and
`|y - horizontalY| < 20`. -/
def horizontalBlocked (start endRoom : Room) (allRooms : List Room)
    (horizontalX horizontalY : ℚ) : Bool :=
  allRooms.any fun room =>
    if room.id = start.id ∨ room.id = endRoom.id ∨ room.type = RoomType.waypoint then false
    else decide (min start.x horizontalX < room.x ∧ room.x < max start.x horizontalX ∧
      |room.y - horizontalY| < 20)

/-- The blocking test of the source's vertical leg: a non-waypoint room other
than the endpoints with `y` strictly between the current point's y and the
target y and `|x - verticalX| < 20`. -/
def verticalBlocked (start endRoom : Room) (allRooms : List Room)
    (fromY verticalX verticalY : ℚ) : Bool :=
  allRooms.any fun room =>
    if room.id = start.id ∨ room.id = endRoom.id ∨ room.type = RoomType.waypoint then false
    else decide (min fromY verticalY < room.y ∧ room.y < max fromY verticalY ∧
      |room.x - verticalX| < 20)

/-- The waypoint-reuse scan of `createGridBasedPath`: the first waypoint within
15 units of the target point in both axes. -/
def gridWaypointNear (waypoints : List Room) (tx ty : ℚ) : Option Room :=
  waypoints.find? fun w => decide (|w.x - tx| < 15 ∧ |w.y - ty| < 15)

/-- The horizontal leg of the source's `createGridBasedPath` (its `path` after
the first `if`): move toward `(end.x, start.y)` when `|end.x - start.x| > 20`,
reusing a nearby waypoint, else pushing the waypoint nearest to `start` when
the corridor is blocked, else synthesizing a virtual waypoint. -/
def gridPath1 (start endRoom : Room) (allRooms waypoints : List Room) : List Room :=
  if 20 < |endRoom.x - start.x| then
    match gridWaypointNear waypoints endRoom.x start.y with
    | some horizontalWaypoint => [start, horizontalWaypoint]
    | none =>
        if horizontalBlocked start endRoom allRooms endRoom.x start.y then
          match findNearestWaypoint start waypoints with
          | some closestWaypoint => [start, closestWaypoint]
          | none => [start]
        else
          [start,
           ⟨"virtual-h-" ++ start.id ++ "-" ++ endRoom.id, "Corridor", endRoom.x,
            start.y, [], RoomType.waypoint⟩]
  else [start]

/-- The vertical leg of the source's `createGridBasedPath`, extending the path
produced by the horizontal leg: move toward `(last.x, end.y)` when
`|end.y - last.y| > 20`, reusing a nearby waypoint, else appending the
detour selector's result without its first element when the corridor is
blocked, else synthesizing a virtual waypoint.  `path1` is never empty, so
`getLastD start` reads the same element as the source's
`path[path.length - 1]`. -/
def gridPath2 (start endRoom : Room) (allRooms waypoints path1 : List Room) : List Room :=
  if 20 < |endRoom.y - (path1.getLastD start).y| then
    match gridWaypointNear waypoints (path1.getLastD start).x endRoom.y with
    | some verticalWaypoint => path1 ++ [verticalWaypoint]
    | none =>
        if verticalBlocked start endRoom allRooms (path1.getLastD start).y
            (path1.getLastD start).x endRoom.y then
          path1 ++
            (findRouteThroughWaypoints (path1.getLastD start) endRoom waypoints allRooms).drop 1
        else
          path1 ++
            [⟨"virtual-v-" ++ start.id ++ "-" ++ endRoom.id, "Corridor",
              (path1.getLastD start).x, endRoom.y, [], RoomType.waypoint⟩]
  else path1

/-- The waypoint collection of `createGridBasedPath`: `allRooms` filtered to
kind waypoint. -/
def gridWaypoints (allRooms : List Room) : List Room :=
  allRooms.filter fun r => r.type = RoomType.waypoint

/-- The two synthesized legs of `createGridBasedPath`, before the final
destination append. -/
def gridLegs (start endRoom : Room) (allRooms : List Room) : List Room :=
  gridPath2 start endRoom allRooms (gridWaypoints allRooms)
    (gridPath1 start endRoom allRooms (gridWaypoints allRooms))

/-- The source's `createGridBasedPath`: the horizontal leg, then the vertical
leg, then the destination if its id is not already last. -/
def createGridBasedPath (start endRoom : Room) (allRooms : List Room) : List Room :=
  if ((gridLegs start endRoom allRooms).getLastD start).id = endRoom.id then
    gridLegs start endRoom allRooms
  else gridLegs start endRoom allRooms ++ [endRoom]

/-- The working node list of the source's `getShortestPath`: a copy of
`allRooms` with `start` pushed if no room carries its id, then `end` pushed if
no room carries its id. -/
def workingRooms (start endRoom : Room) (allRooms : List Room) : List Room :=
  let rooms := if allRooms.any (fun r => r.id = start.id) then allRooms else allRooms ++ [start]
  if rooms.any (fun r => r.id = endRoom.id) then rooms else rooms ++ [endRoom]

/-- The JS `Set` built by successive `add` calls: insertion-ordered and
duplicate-free. -/
def setAddList (l : List String) : List String :=
  l.foldl (fun acc id => if id ∈ acc then acc else acc ++ [id]) []

/-- The mutable state of the source's Dijkstra loop: the `distances` and
`previous` dictionaries (read only at room ids, so total functions embed them)
and the `unvisited` set (insertion-ordered, duplicate-free). -/
structure DState where
  dist : String → WithTop ℝ
  prev : String → Option String
  unvisited : List String

/-- The body of the source's minimum scan over `unvisited`: fold tracking
`(currentId, minDistance)`, updating on a strict improvement. -/
noncomputable def scanFold (dist : String → WithTop ℝ) (unvisited : List String)
    (best : Option String × WithTop ℝ) : Option String × WithTop ℝ :=
  unvisited.foldl (fun best id => if dist id < best.2 then (some id, dist id) else best) best

/-- The source's minimum scan over `unvisited`, starting from
`(null, Infinity)`. -/
noncomputable def scanMin (dist : String → WithTop ℝ) (unvisited : List String) :
    Option String :=
  (scanFold dist unvisited ((none : Option String), (⊤ : WithTop ℝ))).1

/-- One relaxation of the source's inner `forEach`: skip ids not in
`unvisited`, skip dangling ids, otherwise relax
`dist[n] = min(dist[n], dist[current] + distance(current, neighbor))`,
recording the predecessor on strict improvement. -/
noncomputable def relaxOne (currentRoom : Room) (currentId : String) (rooms : List Room)
    (st : DState) (neighborId : String) : DState :=
  if neighborId ∈ st.unvisited then
    match rooms.find? (fun r => r.id = neighborId) with
    | none => st
    | some neighbor =>
        let d := st.dist currentId + (calculateDistance currentRoom neighbor : WithTop ℝ)
        if d < st.dist neighborId then
          ⟨fun i => if i = neighborId then d else st.dist i,
           fun i => if i = neighborId then some currentId else st.prev i,
           st.unvisited⟩
        else st
  else st

/-- The source's full relaxation pass over `currentRoom.connections`. -/
noncomputable def relaxAll (currentRoom : Room) (currentId : String) (rooms : List Room)
    (st : DState) : DState :=
  currentRoom.connections.foldl (relaxOne currentRoom currentId rooms) st

/-- The source's main `while (unvisited.size > 0)` loop, fuel-indexed.  Each
iteration selects the unvisited id of minimum distance, breaks when none is
left (`currentId === null`) or the destination is selected, otherwise removes
it and relaxes its connections.  The call site passes fuel
`unvisited.length + 1`, which `dijkstraLoop_breaks` proves sufficient. -/
noncomputable def dijkstraLoop (endId : String) (rooms : List Room) :
    ℕ → DState → DState
  | 0, st => st
  | fuel + 1, st =>
      if st.unvisited = [] then st
      else
        match scanMin st.dist st.unvisited with
        | none => st
        | some currentId =>
            if currentId = endId then st
            else
              let st' : DState := ⟨st.dist, st.prev, st.unvisited.erase currentId⟩
              match rooms.find? (fun r => r.id = currentId) with
              | none => dijkstraLoop endId rooms fuel st'
              | some currentRoom =>
                  dijkstraLoop endId rooms fuel (relaxAll currentRoom currentId rooms st')

/-- The source's reconstruction loop `while (currentId)`, fuel-indexed: the
loop stops on `null` or the empty string (JS truthiness), on an id that
resolves to no room, and otherwise prepends the room and follows `previous`.
The call site passes fuel `rooms.length + 2`, sufficient because predecessor
chains follow the strictly increasing settling order (`reconstructPath_spec`). -/
def reconstructPath (rooms : List Room) (prev : String → Option String) :
    ℕ → Option String → List Room → List Room
  | _, none, path => path
  | 0, some _, path => path
  | fuel + 1, some currentId, path =>
      if currentId = "" then path
      else
        match rooms.find? (fun r => r.id = currentId) with
        | none => path
        | some room => reconstructPath rooms prev fuel (prev currentId) (room :: path)

/-- The initial Dijkstra state of the source: distance 0 at the start id and
`Infinity` elsewhere, no predecessors, all (deduplicated) room ids unvisited. -/
noncomputable def initState (startId : String) (rooms : List Room) : DState :=
  ⟨fun id => if id = startId then (0 : WithTop ℝ) else ⊤, fun _ => none,
   setAddList (rooms.map Room.id)⟩

/-- The graph-search half of the source's `getShortestPath`: run the Dijkstra
loop to completion and reconstruct the path from the destination id. -/
noncomputable def dijkstraSearch (start endRoom : Room) (rooms : List Room) : List Room :=
  reconstructPath rooms
    (dijkstraLoop endRoom.id rooms ((setAddList (rooms.map Room.id)).length + 1)
      (initState start.id rooms)).prev
    (rooms.length + 2) (some endRoom.id) []

/-- The source's exported `getShortestPath`: fall straight to the grid
synthesizer when either endpoint has no connections; otherwise run graph
search on the working list and accept the result only when it is nonempty and
starts at the start id, falling back to the grid synthesizer otherwise. -/
noncomputable def getShortestPath (start endRoom : Room) (allRooms : List Room) :
    List Room :=
  if start.connections = [] ∨ endRoom.connections = [] then
    createGridBasedPath start endRoom allRooms
  else
    match dijkstraSearch start endRoom (workingRooms start endRoom allRooms) with
    | [] => createGridBasedPath start endRoom allRooms
    | r :: t =>
        if r.id = start.id then r :: t else createGridBasedPath start endRoom allRooms

/-- Connection paths of the routing graph: a nonempty list of rooms drawn from
`rooms`, starting at `a`, ending at `b`, successive rooms linked by the listed
connections (an edge `u -> v` exists when `v.id ∈ u.connections`). -/
def IsConnPath (rooms : List Room) (a b : Room) (p : List Room) : Prop :=
  p ≠ [] ∧ p.head? = some a ∧ p.getLast? = some b ∧ (∀ r ∈ p, r ∈ rooms) ∧
    List.Chain' (fun u v => v.id ∈ u.connections) p

/-- Total Euclidean length of a path: the sum of `calculateDistance` over
consecutive pairs. -/
noncomputable def pathCost : List Room → ℝ
  | [] => 0
  | [_] => 0
  | u :: v :: rest => calculateDistance u v + pathCost (v :: rest)

/-- The symmetrized graph of the specification: every room additionally lists
the ids of the rooms that list it (the spec reads `connections` as undirected
edges). -/
def symmetrize (allRooms : List Room) : List Room :=
  allRooms.map fun r =>
    ⟨r.id, r.name, r.x, r.y,
     r.connections ++
       ((allRooms.filter fun a => decide (r.id ∈ a.connections) && !decide (a.id ∈ r.connections)).map Room.id),
     r.type⟩

/-- Shape of every node the engine synthesizes at routing time: empty
connection list and an id built from the endpoint ids with one of the three
synthesized-id patterns (`virtual-h-`, `virtual-v-`, `corner-`). -/
def VirtualLike (r : Room) : Prop :=
  r.connections = [] ∧ ∃ a b : String,
    r.id = "virtual-h-" ++ a ++ "-" ++ b ∨ r.id = "virtual-v-" ++ a ++ "-" ++ b ∨
      r.id = "corner-" ++ a ++ "-" ++ b

/-- Concrete fixture: an isolated room at the origin. -/
def exA : Room := ⟨"a", "A", 0, 0, [], RoomType.room⟩

/-- Concrete fixture: an isolated room at `(200, 150)`. -/
def exB : Room := ⟨"b", "B", 200, 150, [], RoomType.room⟩

/-- The horizontal virtual waypoint the grid synthesizer creates for
`exA -> exB`. -/
def exVH : Room := ⟨"virtual-h-a-b", "Corridor", 200, 0, [], RoomType.waypoint⟩

/-- The vertical virtual waypoint the grid synthesizer creates for
`exA -> exB`. -/
def exVV : Room := ⟨"virtual-v-a-b", "Corridor", 200, 150, [], RoomType.waypoint⟩

/-- Concrete fixture: a real (non-waypoint) room whose id collides with the
synthesized id `virtual-h-a-b`, placed far from the `exA -> exB` corridor. -/
def exImpostor : Room := ⟨"virtual-h-a-b", "T", 500, 500, [], RoomType.room⟩

/-- Concrete fixture: a room listing `b` as its only connection. -/
def exA8 : Room := ⟨"a", "A", 0, 0, ["b"], RoomType.room⟩

/-- Concrete fixture: the room listed by `exA8`, itself listing only a
dangling id (so the edge `a-b` appears in one direction only). -/
def exB8 : Room := ⟨"b", "B", 100, 0, ["x"], RoomType.room⟩

/-- The room `exB8` as it appears in the symmetrized graph: it additionally
lists `a`. -/
def exB8s : Room := ⟨"b", "B", 100, 0, ["x", "a"], RoomType.room⟩

/-- The horizontal virtual waypoint the grid synthesizer creates for
`exB8 -> exA8`. -/
def exVH8 : Room := ⟨"virtual-h-b-a", "Corridor", 0, 0, [], RoomType.waypoint⟩

/-- Concrete fixture: a room with a (dangling) connection, used as both start
and destination of one routing call. -/
def exS10 : Room := ⟨"a", "S", 0, 0, ["x"], RoomType.room⟩

/-- Concrete fixture: a different room that carries the same id as `exS10`. -/
def exT10 : Room := ⟨"a", "T", 5, 5, [], RoomType.room⟩

/-- Concrete fixture for the horizontal-blocked scenario: the start. -/
def exS5 : Room := ⟨"s", "S", 0, 0, [], RoomType.room⟩

/-- Concrete fixture for the horizontal-blocked scenario: the destination. -/
def exE5 : Room := ⟨"e", "E", 200, 5, [], RoomType.room⟩

/-- Concrete fixture for the horizontal-blocked scenario: a far-away waypoint
(the only one, hence the nearest to the start). -/
def exW5 : Room := ⟨"w", "W", 50, 300, [], RoomType.waypoint⟩

/-- Concrete fixture for the horizontal-blocked scenario: the room blocking the
horizontal corridor at `(100, 0)`. -/
def exR5 : Room := ⟨"r", "R", 100, 0, [], RoomType.room⟩

/-- The vertical virtual waypoint the grid synthesizer creates after routing
through `exW5`. -/
def exVV5 : Room := ⟨"virtual-v-s-e", "Corridor", 50, 5, [], RoomType.waypoint⟩

/-- The corner the detour selector would synthesize for `exS5 -> exE5`. -/
def exCorner5 : Room := ⟨"corner-s-e", "Corner", 200, 0, [], RoomType.waypoint⟩

/-- Start node of the C2 counterexample: its id is the empty string, which JS
treats as falsy in the reconstruction loop. -/
def exS2 : Room := ⟨"", "S", 0, 0, ["b"], RoomType.room⟩

/-- Destination of the C2 counterexample, connected back to the start. -/
def exE2 : Room := ⟨"b", "B", 100, 80, [""], RoomType.room⟩

/-- Horizontal virtual waypoint the grid fallback synthesizes for
`exS2 -> exE2`. -/
def exVH2 : Room := ⟨"virtual-h--b", "Corridor", 100, 0, [], RoomType.waypoint⟩

/-- Vertical virtual waypoint the grid fallback synthesizes for
`exS2 -> exE2`. -/
def exVV2 : Room := ⟨"virtual-v--b", "Corridor", 100, 80, [], RoomType.waypoint⟩

/-- Start node of the C2 witness graph: a well-formed two-node graph with
edges in both directions. -/
def exWS : Room := ⟨"ws", "S", 0, 0, ["we"], RoomType.room⟩

/-- Destination of the C2 witness graph, at Euclidean distance 5 from
`exWS`. -/
def exWE : Room := ⟨"we", "E", 3, 4, ["ws"], RoomType.room⟩

/-- Cost set of claim C2: the total Euclidean lengths of all connection paths
from `start` to `target` inside `rooms`. -/
def distSet (rooms : List Room) (start target : Room) : Set ℝ :=
  {c | ∃ p, IsConnPath rooms start target p ∧ pathCost p = c}

/-- Invariant of the source's Dijkstra loop, indexed by the settling order
`dl`: the list of ids removed from `unvisited` so far, oldest first.  It
records that settled ids carry their exact shortest-path distance, that every
tentative distance is either untouched, the start, or obtained by relaxing an
edge out of a settled node, that settled distances are no larger than
tentative ones, and that the predecessor map decodes relaxed edges whose
settle-order indices decrease. -/
structure DInvW (start endRoom : Room) (rooms : List Room) (dl : List String)
    (st : DState) : Prop where
  dl_nodup : dl.Nodup
  dl_ids : ∀ x ∈ dl, x ∈ rooms.map Room.id
  unvisited_iff : ∀ x, x ∈ st.unvisited ↔ x ∈ rooms.map Room.id ∧ x ∉ dl
  unvisited_nodup : st.unvisited.Nodup
  no_settled_end : endRoom.id ∉ dl
  junk_top : ∀ x, x ∉ rooms.map Room.id → st.dist x = ⊤
  dist_nonneg : ∀ x, 0 ≤ st.dist x
  start_dist : st.dist start.id = 0
  start_prev : st.prev start.id = none
  settled : ∀ x ∈ dl, ∃ r : Room, ∃ c : ℝ, rooms.find? (fun t => t.id = x) = some r ∧
    st.dist x = (c : WithTop ℝ) ∧ IsLeast (distSet rooms start r) c
  settled_le : ∀ x ∈ dl, ∀ y, y ∉ dl → st.dist x ≤ st.dist y
  frontier_lb : ∀ u ∈ dl, ∀ y, y ∉ dl → ∀ ru ry,
    rooms.find? (fun t => t.id = u) = some ru →
    rooms.find? (fun t => t.id = y) = some ry →
    y ∈ ru.connections → st.dist y ≤ st.dist u + (calculateDistance ru ry : WithTop ℝ)
  frontier_at : ∀ y, y ∉ dl → st.dist y = ⊤ ∨ (y = start.id ∧ st.dist y = 0) ∨
    ∃ u ∈ dl, ∃ ru ry, rooms.find? (fun t => t.id = u) = some ru ∧
      rooms.find? (fun t => t.id = y) = some ry ∧ y ∈ ru.connections ∧
      st.dist y = st.dist u + (calculateDistance ru ry : WithTop ℝ)
  prev_some : ∀ x u, st.prev x = some u → u ∈ dl ∧ x ≠ start.id ∧
    ∃ ru rx, rooms.find? (fun t => t.id = u) = some ru ∧
      rooms.find? (fun t => t.id = x) = some rx ∧ x ∈ ru.connections ∧
      st.dist x = st.dist u + (calculateDistance ru rx : WithTop ℝ) ∧
      (x ∈ dl → List.indexOf u dl < List.indexOf x dl)
  prev_none : ∀ x, st.prev x = none → x = start.id ∨ st.dist x = ⊤

/-! ### Fidelity of the square-root-free comparisons -/

theorem calculateDistance_eq_sqrt_distSq (a b : Room) :
    calculateDistance a b = Real.sqrt ((distSq a b : ℚ) : ℝ) := by
  unfold calculateDistance distSq
  push_cast
  ring_nf

theorem distSq_nonneg (a b : Room) : 0 ≤ distSq a b := by
  unfold distSq
  positivity

theorem calculateDistance_nonneg (a b : Room) : 0 ≤ calculateDistance a b :=
  Real.sqrt_nonneg _

/-- Comparing squared distances orders pairs of rooms exactly as the source's
real-valued `calculateDistance` does. -/
theorem distSq_lt_distSq_iff (a b c d : Room) :
    distSq a b < distSq c d ↔ calculateDistance a b < calculateDistance c d := by
  rw [calculateDistance_eq_sqrt_distSq, calculateDistance_eq_sqrt_distSq,
    Real.sqrt_lt_sqrt_iff (by exact_mod_cast distSq_nonneg a b)]
  exact (Rat.cast_lt (K := ℝ)).symm

/-- The embedded `linePassesThroughRoom` agrees with the source's real-valued
test `|A*roomX + B*roomY + C| / sqrt(A^2 + B^2) < roomRadius` whenever the two
line points differ (when they coincide the source compares `NaN < r`, which is
false, as is the embedded guard `0 < A^2 + B^2`). -/
theorem linePassesThroughRoom_spec (x1 y1 x2 y2 roomX roomY roomRadius : ℚ)
    (h : ¬(x1 = x2 ∧ y1 = y2)) :
    linePassesThroughRoom x1 y1 x2 y2 roomX roomY roomRadius = true ↔
      |(((x1 - x2) * roomX + (y1 - y2) * roomY + (x1 * y2 - y1 * x2) : ℚ) : ℝ)| /
          Real.sqrt (((x1 - x2 : ℚ) : ℝ) ^ 2 + ((y1 - y2 : ℚ) : ℝ) ^ 2) <
        ((roomRadius : ℚ) : ℝ) := by
  have hAB : (0 : ℚ) < (x1 - x2) ^ 2 + (y1 - y2) ^ 2 := by
    rcases not_and_or.mp h with h' | h'
    · have : x1 - x2 ≠ 0 := sub_ne_zero.mpr h'
      positivity
    · have : y1 - y2 ≠ 0 := sub_ne_zero.mpr h'
      positivity
  have hABR : (0 : ℝ) < ((x1 - x2 : ℚ) : ℝ) ^ 2 + ((y1 - y2 : ℚ) : ℝ) ^ 2 := by
    exact_mod_cast hAB
  have hsq : (0 : ℝ) < Real.sqrt (((x1 - x2 : ℚ) : ℝ) ^ 2 + ((y1 - y2 : ℚ) : ℝ) ^ 2) :=
    Real.sqrt_pos.mpr hABR
  rw [div_lt_iff₀ hsq]
  unfold linePassesThroughRoom
  simp only [decide_eq_true_eq]
  constructor
  · rintro ⟨-, hr, hlt⟩
    have hrR : (0 : ℝ) < (roomRadius : ℝ) := by exact_mod_cast hr
    have habs : |(((x1 - x2) * roomX + (y1 - y2) * roomY + (x1 * y2 - y1 * x2) : ℚ) : ℝ)| =
        Real.sqrt ((((x1 - x2) * roomX + (y1 - y2) * roomY + (x1 * y2 - y1 * x2) : ℚ) : ℝ) ^ 2) :=
      (Real.sqrt_sq_eq_abs _).symm
    rw [habs]
    have hprod : (roomRadius : ℝ) *
        Real.sqrt (((x1 - x2 : ℚ) : ℝ) ^ 2 + ((y1 - y2 : ℚ) : ℝ) ^ 2) =
        Real.sqrt (((roomRadius : ℚ) : ℝ) ^ 2 *
          (((x1 - x2 : ℚ) : ℝ) ^ 2 + ((y1 - y2 : ℚ) : ℝ) ^ 2)) := by
      rw [Real.sqrt_mul (by positivity), Real.sqrt_sq hrR.le]
    rw [hprod]
    apply Real.sqrt_lt_sqrt (by positivity)
    exact_mod_cast hlt
  · intro hlt
    have hr : (0 : ℚ) < roomRadius := by
      by_contra hr
      push_neg at hr
      have h1 : ((roomRadius : ℚ) : ℝ) *
          Real.sqrt (((x1 - x2 : ℚ) : ℝ) ^ 2 + ((y1 - y2 : ℚ) : ℝ) ^ 2) ≤ 0 := by
        apply mul_nonpos_of_nonpos_of_nonneg
        · exact_mod_cast hr
        · exact Real.sqrt_nonneg _
      have h2 := (abs_nonneg _).trans_lt hlt
      exact absurd (h2.trans_le h1) (lt_irrefl 0)
    refine ⟨hAB, hr, ?_⟩
    have hrR : (0 : ℝ) < (roomRadius : ℝ) := by exact_mod_cast hr
    have key : (((x1 - x2) * roomX + (y1 - y2) * roomY + (x1 * y2 - y1 * x2) : ℚ) : ℝ) ^ 2 <
        ((roomRadius : ℚ) : ℝ) ^ 2 *
          (((x1 - x2 : ℚ) : ℝ) ^ 2 + ((y1 - y2 : ℚ) : ℝ) ^ 2) := by
      have h2 : |(((x1 - x2) * roomX + (y1 - y2) * roomY + (x1 * y2 - y1 * x2) : ℚ) : ℝ)| ^ 2 <
          ((roomRadius : ℝ) *
            Real.sqrt (((x1 - x2 : ℚ) : ℝ) ^ 2 + ((y1 - y2 : ℚ) : ℝ) ^ 2)) ^ 2 := by
        apply pow_lt_pow_left₀ hlt (abs_nonneg _)
        norm_num
      rw [sq_abs, mul_pow, Real.sq_sqrt hABR.le] at h2
      exact h2
    exact_mod_cast key

/-! ### Structure of the grid synthesizer's output -/

theorem gridPath1_cons (start endRoom : Room) (allRooms waypoints : List Room) :
    ∃ t, gridPath1 start endRoom allRooms waypoints = start :: t := by
  unfold gridPath1
  repeat' split
  all_goals exact ⟨_, rfl⟩

theorem gridPath2_append (start endRoom : Room) (allRooms waypoints path1 : List Room) :
    ∃ t, gridPath2 start endRoom allRooms waypoints path1 = path1 ++ t := by
  unfold gridPath2
  repeat' split
  · exact ⟨_, rfl⟩
  · exact ⟨_, rfl⟩
  · exact ⟨_, rfl⟩
  · exact ⟨[], (List.append_nil _).symm⟩

theorem gridLegs_cons (start endRoom : Room) (allRooms : List Room) :
    ∃ t, gridLegs start endRoom allRooms = start :: t := by
  obtain ⟨t1, h1⟩ := gridPath1_cons start endRoom allRooms (gridWaypoints allRooms)
  obtain ⟨t2, h2⟩ := gridPath2_append start endRoom allRooms (gridWaypoints allRooms)
    (gridPath1 start endRoom allRooms (gridWaypoints allRooms))
  refine ⟨t1 ++ t2, ?_⟩
  rw [gridLegs, h2, h1]
  simp

theorem createGridBasedPath_cons (start endRoom : Room) (allRooms : List Room) :
    ∃ t, createGridBasedPath start endRoom allRooms = start :: t := by
  obtain ⟨t, h⟩ := gridLegs_cons start endRoom allRooms
  unfold createGridBasedPath
  rw [h]
  split
  · exact ⟨t, rfl⟩
  · exact ⟨t ++ [endRoom], by simp⟩

theorem createGridBasedPath_ne_nil (start endRoom : Room) (allRooms : List Room) :
    createGridBasedPath start endRoom allRooms ≠ [] := by
  obtain ⟨t, h⟩ := createGridBasedPath_cons start endRoom allRooms
  simp [h]

theorem createGridBasedPath_head (start endRoom : Room) (allRooms : List Room) :
    (createGridBasedPath start endRoom allRooms).head?.map Room.id = some start.id := by
  obtain ⟨t, h⟩ := createGridBasedPath_cons start endRoom allRooms
  simp [h]

theorem createGridBasedPath_last (start endRoom : Room) (allRooms : List Room) :
    (createGridBasedPath start endRoom allRooms).getLast?.map Room.id = some endRoom.id := by
  obtain ⟨t, h⟩ := gridLegs_cons start endRoom allRooms
  unfold createGridBasedPath
  split
  · rename_i hid
    rw [h] at hid ⊢
    have hne : start :: t ≠ [] := by simp
    rw [List.getLastD_eq_getLast?] at hid
    have hx := List.getLast?_eq_getLast_of_ne_nil hne
    rw [hx]
    rw [hx] at hid
    simpa using hid
  · simp

/-! ### Structure of the reconstruction loop's output -/

theorem reconstructPath_acc (rooms : List Room) (prev : String → Option String) :
    ∀ fuel cid acc, ∃ pre, reconstructPath rooms prev fuel cid acc = pre ++ acc := by
  intro fuel
  induction fuel with
  | zero =>
      intro cid acc
      cases cid <;> exact ⟨[], rfl⟩
  | succ n ih =>
      intro cid acc
      cases cid with
      | none => exact ⟨[], rfl⟩
      | some c =>
          show ∃ pre, reconstructPath rooms prev (n + 1) (some c) acc = pre ++ acc
          rw [reconstructPath]
          split
          · exact ⟨[], rfl⟩
          · split
            · exact ⟨[], rfl⟩
            · rename_i room heq
              obtain ⟨pre, hpre⟩ := ih (prev c) (room :: acc)
              exact ⟨pre ++ [room], by rw [hpre]; simp⟩

theorem reconstructPath_nil_or_last (rooms : List Room) (prev : String → Option String)
    (fuel : ℕ) (endId : String) :
    reconstructPath rooms prev fuel (some endId) [] = [] ∨
      ∃ pre r, reconstructPath rooms prev fuel (some endId) [] = pre ++ [r] ∧ r.id = endId := by
  cases fuel with
  | zero => exact Or.inl rfl
  | succ n =>
      rw [reconstructPath]
      split
      · exact Or.inl rfl
      · split
        · exact Or.inl rfl
        · rename_i room heq
          right
          obtain ⟨pre, hpre⟩ := reconstructPath_acc rooms prev n (prev endId) [room]
          refine ⟨pre, room, hpre, ?_⟩
          have := List.find?_some heq
          simpa using this

/-- Head and last ids of every path returned by `getShortestPath`: the first
element carries the start id and the last element the destination id, in the
graph-search branch and in every fallback branch. -/
theorem dijkstraSearch_nil_or_last (start endRoom : Room) (rooms : List Room) :
    dijkstraSearch start endRoom rooms = [] ∨
      ∃ pre r, dijkstraSearch start endRoom rooms = pre ++ [r] ∧ r.id = endRoom.id :=
  reconstructPath_nil_or_last rooms _ (rooms.length + 2) endRoom.id

theorem getShortestPath_head_last (start endRoom : Room) (allRooms : List Room) :
    (getShortestPath start endRoom allRooms).head?.map Room.id = some start.id ∧
      (getShortestPath start endRoom allRooms).getLast?.map Room.id = some endRoom.id := by
  have hgrid : (createGridBasedPath start endRoom allRooms).head?.map Room.id = some start.id ∧
      (createGridBasedPath start endRoom allRooms).getLast?.map Room.id = some endRoom.id :=
    ⟨createGridBasedPath_head start endRoom allRooms,
     createGridBasedPath_last start endRoom allRooms⟩
  unfold getShortestPath
  split
  · exact hgrid
  · rcases hrec : dijkstraSearch start endRoom (workingRooms start endRoom allRooms) with
      _ | ⟨r, t⟩
    · simp only [hrec]
      exact hgrid
    · simp only [hrec]
      split
      · rename_i hid
        refine ⟨by simp [hid], ?_⟩
        rcases dijkstraSearch_nil_or_last start endRoom (workingRooms start endRoom allRooms)
          with hnil | ⟨pre, rr, hpre, hrr⟩
        · rw [hrec] at hnil
          simp at hnil
        · rw [hrec] at hpre
          rw [hpre]
          simp [hrr]
      · exact hgrid

/-- C1: totality of the route facade.  For every start node, destination node
and node list, `getShortestPath` returns a path with at least one node (the
embedding is a total function, so no branch can raise). -/
theorem claim_C1_totality (start endRoom : Room) (allRooms : List Room) :
    1 ≤ (getShortestPath start endRoom allRooms).length := by
  rcases h : getShortestPath start endRoom allRooms with _ | ⟨r, t⟩
  · have := (getShortestPath_head_last start endRoom allRooms).1
    rw [h] at this
    simp at this
  · simp

/-- C3: path endpoint postcondition.  For every start, destination and node
list, the path returned by `getShortestPath` begins with an element whose id is
`start.id` and ends with an element whose id is `destination.id`, in every
branch including all fallback synthesis branches. -/
theorem claim_C3_endpoints (start endRoom : Room) (allRooms : List Room) :
    (getShortestPath start endRoom allRooms).head?.map Room.id = some start.id ∧
      (getShortestPath start endRoom allRooms).getLast?.map Room.id = some endRoom.id :=
  getShortestPath_head_last start endRoom allRooms

/-- C4: the obstruction test does not implement the perpendicular point-to-line
distance its own comment and the spec describe.  The room at `(100, 100)` is
the midpoint of the segment from `(0, 0)` to `(200, 200)` — its perpendicular
distance to the line is `0 < 20` — yet `linePassesThroughRoom` rejects it
(the source's numerator `A*x + B*y + C` with `A = x1-x2`, `B = y1-y2`,
`C = x1*y2 - y1*x2` is not a line equation through the two points), and
consequently `isPathObstructed` reports the straight path as clear. -/
theorem claim_C4_line_test_bug :
    ((100 : ℚ) * 2 = 0 + 200 ∧ (100 : ℚ) * 2 = 0 + 200) ∧
      linePassesThroughRoom 0 0 200 200 100 100 20 = false ∧
      isPathObstructed ⟨"s", "S", 0, 0, [], RoomType.room⟩
        ⟨"e", "E", 200, 200, [], RoomType.room⟩
        [⟨"s", "S", 0, 0, [], RoomType.room⟩, ⟨"e", "E", 200, 200, [], RoomType.room⟩,
         ⟨"r", "R", 100, 100, [], RoomType.room⟩] = false := by
  refine ⟨⟨by norm_num, by norm_num⟩, ?_, ?_⟩
  · norm_num [linePassesThroughRoom]
  · norm_num [isPathObstructed, linePassesThroughRoom]

/-- C7: detour selector postcondition.  `findRouteThroughWaypoints` always
returns exactly three rooms: either `[start, w, end]` for a waypoint `w`
meeting the 1.5x Manhattan detour bound with both legs unobstructed, or — when
no waypoint meets both the bound and the obstruction checks — the corner triple
at `(end.x, start.y)`, returned without any obstruction check. -/
theorem claim_C7_detour_selector (start endRoom : Room) (waypoints allRooms : List Room) :
    (findRouteThroughWaypoints start endRoom waypoints allRooms).length = 3 ∧
      ((∃ w ∈ waypoints,
          calculateManhattanDistance start w + calculateManhattanDistance w endRoom <
            calculateManhattanDistance start endRoom * 1.5 ∧
          isPathObstructed start w allRooms = false ∧
          isPathObstructed w endRoom allRooms = false ∧
          findRouteThroughWaypoints start endRoom waypoints allRooms = [start, w, endRoom]) ∨
        ((∀ w ∈ waypoints,
            calculateManhattanDistance start w + calculateManhattanDistance w endRoom <
              calculateManhattanDistance start endRoom * 1.5 →
            isPathObstructed start w allRooms = true ∨
              isPathObstructed w endRoom allRooms = true) ∧
          findRouteThroughWaypoints start endRoom waypoints allRooms =
            [start,
             ⟨"corner-" ++ start.id ++ "-" ++ endRoom.id, "Corner", endRoom.x, start.y, [],
              RoomType.waypoint⟩,
             endRoom])) := by
  simp only [findRouteThroughWaypoints]
  rcases hfind : (((waypoints.filter fun w =>
      decide (calculateManhattanDistance start w + calculateManhattanDistance w endRoom <
        calculateManhattanDistance start endRoom * 1.5)).mergeSort fun a b =>
      decide (calculateManhattanDistance start a + calculateManhattanDistance a endRoom ≤
        calculateManhattanDistance start b + calculateManhattanDistance b endRoom)).find?
      fun w => !isPathObstructed start w allRooms && !isPathObstructed w endRoom allRooms)
    with _ | w
  · refine ⟨rfl, Or.inr ⟨?_, rfl⟩⟩
    intro w hw hbound
    by_contra hobs
    push_neg at hobs
    obtain ⟨h1, h2⟩ := hobs
    have h1' : isPathObstructed start w allRooms = false := Bool.eq_false_iff.mpr h1
    have h2' : isPathObstructed w endRoom allRooms = false := Bool.eq_false_iff.mpr h2
    have hmem : w ∈ (waypoints.filter fun w =>
        decide (calculateManhattanDistance start w + calculateManhattanDistance w endRoom <
          calculateManhattanDistance start endRoom * 1.5)).mergeSort fun a b =>
        decide (calculateManhattanDistance start a + calculateManhattanDistance a endRoom ≤
          calculateManhattanDistance start b + calculateManhattanDistance b endRoom) := by
      rw [List.mem_mergeSort]
      exact List.mem_filter.mpr ⟨hw, by simpa using hbound⟩
    have hnone := List.find?_eq_none.mp hfind w hmem
    apply hnone
    simp [h1', h2']
  · have hw := List.find?_some hfind
    have hmem := List.mem_of_find?_eq_some hfind
    rw [List.mem_mergeSort, List.mem_filter] at hmem
    refine ⟨rfl, Or.inl ⟨w, hmem.1, by simpa using hmem.2, ?_, ?_, rfl⟩⟩
    · simp only [Bool.and_eq_true, Bool.not_eq_true'] at hw
      exact hw.1
    · simp only [Bool.and_eq_true, Bool.not_eq_true'] at hw
      exact hw.2

/-! ### Concrete evaluations of the grid synthesizer -/

theorem eval_gridPath1_AB : gridPath1 exA exB [] [] = [exA, exVH] := by
  rw [gridPath1]
  norm_num [gridWaypointNear, horizontalBlocked, findNearestWaypoint, exA, exB, exVH]
  rfl

theorem eval_gridPath2_AB : gridPath2 exA exB [] [] [exA, exVH] = [exA, exVH, exVV] := by
  rw [gridPath2]
  norm_num [gridWaypointNear, verticalBlocked, exA, exB, exVH, exVV]
  rfl

theorem eval_grid_AB : createGridBasedPath exA exB [] = [exA, exVH, exVV, exB] := by
  have hw : gridWaypoints ([] : List Room) = [] := rfl
  rw [createGridBasedPath, gridLegs, hw, eval_gridPath1_AB, eval_gridPath2_AB]
  norm_num [exVV, exB]
  simp

theorem eval_gsp_AB : getShortestPath exA exB [] = [exA, exVH, exVV, exB] := by
  rw [getShortestPath, if_pos (Or.inl (show exA.connections = [] from rfl))]
  exact eval_grid_AB

theorem eval_gridPath1_AB2 : gridPath1 exA exB [exImpostor] [] = [exA, exVH] := by
  rw [gridPath1]
  norm_num [gridWaypointNear, horizontalBlocked, findNearestWaypoint, exA, exB, exVH, exImpostor]
  rfl

theorem eval_gridPath2_AB2 : gridPath2 exA exB [exImpostor] [] [exA, exVH] = [exA, exVH, exVV] := by
  rw [gridPath2]
  norm_num [gridWaypointNear, verticalBlocked, exA, exB, exVH, exVV, exImpostor]
  rfl

theorem eval_grid_AB2 : createGridBasedPath exA exB [exImpostor] = [exA, exVH, exVV, exB] := by
  have hw : gridWaypoints [exImpostor] = [] := rfl
  rw [createGridBasedPath, gridLegs, hw, eval_gridPath1_AB2, eval_gridPath2_AB2]
  norm_num [exVV, exB]
  simp

theorem eval_gsp_AB2 : getShortestPath exA exB [exImpostor] = [exA, exVH, exVV, exB] := by
  rw [getShortestPath, if_pos (Or.inl (show exA.connections = [] from rfl))]
  exact eval_grid_AB2

theorem eval_gridWaypoints_C5 : gridWaypoints [exW5, exR5] = [exW5] := rfl

theorem eval_gridPath1_C5 : gridPath1 exS5 exE5 [exW5, exR5] [exW5] = [exS5, exW5] := by
  rw [gridPath1]
  norm_num [gridWaypointNear, horizontalBlocked, findNearestWaypoint, exS5, exE5, exW5, exR5]
  simp

theorem eval_gridPath2_C5 :
    gridPath2 exS5 exE5 [exW5, exR5] [exW5] [exS5, exW5] = [exS5, exW5, exVV5] := by
  rw [gridPath2]
  norm_num [gridWaypointNear, verticalBlocked, exS5, exE5, exW5, exR5, exVV5]
  rfl

theorem eval_grid_C5 :
    createGridBasedPath exS5 exE5 [exW5, exR5] = [exS5, exW5, exVV5, exE5] := by
  rw [createGridBasedPath, gridLegs, eval_gridWaypoints_C5, eval_gridPath1_C5,
    eval_gridPath2_C5]
  norm_num [exVV5, exE5]
  simp

theorem eval_route_C5 :
    findRouteThroughWaypoints exS5 exE5 [exW5] [exW5, exR5] = [exS5, exCorner5, exE5] := by
  simp only [findRouteThroughWaypoints]
  norm_num [calculateManhattanDistance, exS5, exE5, exW5]
  rfl

/-! ### Claims C5 and C6 -/

/-- C5 counterexample: at a concrete input satisfying the claim's conditions
(horizontal leg applies, no waypoint within 15 of the target, the horizontal
corridor blocked by a room), the synthesizer appends the waypoint nearest to
the start (`exW5`), not the Waypoint Detour Selector's result minus its first
point (which here would be the corner triple's tail `[exCorner5, exE5]`). -/
theorem claim_C5_counterexample :
    (20 < |exE5.x - exS5.x| ∧
      gridWaypointNear (gridWaypoints [exW5, exR5]) exE5.x exS5.y = none ∧
      horizontalBlocked exS5 exE5 [exW5, exR5] exE5.x exS5.y = true) ∧
      (createGridBasedPath exS5 exE5 [exW5, exR5]).take 3 ≠
        exS5 :: (findRouteThroughWaypoints exS5 exE5 (gridWaypoints [exW5, exR5])
          [exW5, exR5]).drop 1 := by
  refine ⟨⟨by norm_num [exS5, exE5], ?_, ?_⟩, ?_⟩
  · rw [eval_gridWaypoints_C5]
    norm_num [gridWaypointNear, exW5, exE5, exS5]
  · norm_num [horizontalBlocked, exS5, exE5, exW5, exR5]
    simp
  · rw [eval_grid_C5, eval_gridWaypoints_C5, eval_route_C5]
    simp [exW5, exCorner5]

/-- C5 amended: when the horizontal leg applies, no existing waypoint is
within 15 units of the target point, and the horizontal corridor is blocked,
the synthesizer appends the waypoint nearest to the start
(`findNearestWaypoint`; nothing when there is no waypoint) and continues with
the vertical leg; the Waypoint Detour Selector is not consulted in this
branch. -/
theorem claim_C5_amended (start endRoom : Room) (allRooms : List Room)
    (hdx : 20 < |endRoom.x - start.x|)
    (hnear : gridWaypointNear (gridWaypoints allRooms) endRoom.x start.y = none)
    (hblock : horizontalBlocked start endRoom allRooms endRoom.x start.y = true) :
    ∃ rest, createGridBasedPath start endRoom allRooms =
      start :: (findNearestWaypoint start (gridWaypoints allRooms)).toList ++ rest := by
  have h1 : gridPath1 start endRoom allRooms (gridWaypoints allRooms) =
      start :: (findNearestWaypoint start (gridWaypoints allRooms)).toList := by
    rw [gridPath1, if_pos hdx, hnear]
    cases hfn : findNearestWaypoint start (gridWaypoints allRooms) <;> simp [hfn, hblock]
  obtain ⟨t2, h2⟩ := gridPath2_append start endRoom allRooms (gridWaypoints allRooms)
    (gridPath1 start endRoom allRooms (gridWaypoints allRooms))
  have hlegs : gridLegs start endRoom allRooms =
      start :: (findNearestWaypoint start (gridWaypoints allRooms)).toList ++ t2 := by
    rw [gridLegs, h2, h1]
  unfold createGridBasedPath
  rw [hlegs]
  split
  · exact ⟨t2, rfl⟩
  · exact ⟨t2 ++ [endRoom], by simp⟩

/-- C5 amended witness: the concrete blocked scenario, with the nearest
waypoint `exW5` appended right after the start. -/
theorem claim_C5_amended_witness :
    (20 < |exE5.x - exS5.x| ∧
      gridWaypointNear (gridWaypoints [exW5, exR5]) exE5.x exS5.y = none ∧
      horizontalBlocked exS5 exE5 [exW5, exR5] exE5.x exS5.y = true) ∧
      ∃ rest, createGridBasedPath exS5 exE5 [exW5, exR5] =
        exS5 :: (findNearestWaypoint exS5 (gridWaypoints [exW5, exR5])).toList ++ rest := by
  have hdx : 20 < |exE5.x - exS5.x| := by norm_num [exS5, exE5]
  have hnear : gridWaypointNear (gridWaypoints [exW5, exR5]) exE5.x exS5.y = none := by
    rw [eval_gridWaypoints_C5]
    norm_num [gridWaypointNear, exW5, exE5, exS5]
  have hblock : horizontalBlocked exS5 exE5 [exW5, exR5] exE5.x exS5.y = true := by
    norm_num [horizontalBlocked, exS5, exE5, exW5, exR5]
    simp
  exact ⟨⟨hdx, hnear, hblock⟩, claim_C5_amended exS5 exE5 [exW5, exR5] hdx hnear hblock⟩

/-- No string equals a nonempty string prepended to itself (used to show the
synthesized virtual ids never coincide with the destination id). -/
theorem ne_append_self (q b : String) (hq : q.length ≠ 0) : b ≠ q ++ b := by
  intro h
  have hlen := congrArg String.length h
  rw [String.length_append] at hlen
  omega

/-- C6 counterexample: with an isolated start at the origin, the destination at
`(200, 150)`, and an empty node collection (so nothing obstructs and no
waypoint can be reused), the synthesized path has two intermediate leg points,
at `(200, 0)` and `(200, 150)`, not exactly one. -/
theorem claim_C6_counterexample :
    (exA.connections = [] ∧ 20 < |exB.x - exA.x| ∧ 20 < |exB.y - exA.y|) ∧
      getShortestPath exA exB [] = [exA, exVH, exVV, exB] ∧
      (getShortestPath exA exB []).length ≠ 3 := by
  refine ⟨⟨rfl, by norm_num [exA, exB], by norm_num [exA, exB]⟩, eval_gsp_AB, ?_⟩
  rw [eval_gsp_AB]
  simp

/-- C6 amended: when the start has no connections, both coordinate deltas
exceed 20, no existing waypoint is within 15 of either target point and
neither corridor is blocked, the synthesized path has exactly two intermediate
leg points: a horizontal virtual waypoint at `(destination.x, start.y)` and a
vertical virtual waypoint at `(destination.x, destination.y)`, followed by the
destination itself. -/
theorem claim_C6_amended (start endRoom : Room) (allRooms : List Room)
    (hconn : start.connections = [])
    (hdx : 20 < |endRoom.x - start.x|)
    (hdy : 20 < |endRoom.y - start.y|)
    (hnearH : gridWaypointNear (gridWaypoints allRooms) endRoom.x start.y = none)
    (hnearV : gridWaypointNear (gridWaypoints allRooms) endRoom.x endRoom.y = none)
    (hblockH : horizontalBlocked start endRoom allRooms endRoom.x start.y = false)
    (hblockV : verticalBlocked start endRoom allRooms start.y endRoom.x endRoom.y = false) :
    getShortestPath start endRoom allRooms =
      [start,
       ⟨"virtual-h-" ++ start.id ++ "-" ++ endRoom.id, "Corridor", endRoom.x, start.y, [],
        RoomType.waypoint⟩,
       ⟨"virtual-v-" ++ start.id ++ "-" ++ endRoom.id, "Corridor", endRoom.x, endRoom.y, [],
        RoomType.waypoint⟩,
       endRoom] := by
  have h1 : gridPath1 start endRoom allRooms (gridWaypoints allRooms) =
      [start,
       ⟨"virtual-h-" ++ start.id ++ "-" ++ endRoom.id, "Corridor", endRoom.x, start.y, [],
        RoomType.waypoint⟩] := by
    rw [gridPath1, if_pos hdx, hnearH]
    simp [hblockH]
  have h2 : gridPath2 start endRoom allRooms (gridWaypoints allRooms)
      (gridPath1 start endRoom allRooms (gridWaypoints allRooms)) =
      [start,
       ⟨"virtual-h-" ++ start.id ++ "-" ++ endRoom.id, "Corridor", endRoom.x, start.y, [],
        RoomType.waypoint⟩,
       ⟨"virtual-v-" ++ start.id ++ "-" ++ endRoom.id, "Corridor", endRoom.x, endRoom.y, [],
        RoomType.waypoint⟩] := by
    rw [h1, gridPath2]
    have hlast : ([start,
        ⟨"virtual-h-" ++ start.id ++ "-" ++ endRoom.id, "Corridor", endRoom.x, start.y, [],
         RoomType.waypoint⟩] : List Room).getLastD start =
        ⟨"virtual-h-" ++ start.id ++ "-" ++ endRoom.id, "Corridor", endRoom.x, start.y, [],
         RoomType.waypoint⟩ := rfl
    rw [hlast]
    rw [if_pos (show (20 : ℚ) <
      |endRoom.y - (⟨"virtual-h-" ++ start.id ++ "-" ++ endRoom.id, "Corridor", endRoom.x,
        start.y, [], RoomType.waypoint⟩ : Room).y| from by simpa using hdy)]
    rw [show gridWaypointNear (gridWaypoints allRooms)
        (⟨"virtual-h-" ++ start.id ++ "-" ++ endRoom.id, "Corridor", endRoom.x, start.y, [],
          RoomType.waypoint⟩ : Room).x endRoom.y = none from hnearV]
    simp [hblockV]
  have hne : endRoom.id ≠ "virtual-v-" ++ start.id ++ "-" ++ endRoom.id := by
    have hq : ("virtual-v-" ++ start.id ++ "-").length ≠ 0 := by
      rw [String.length_append, String.length_append]
      have h10 : ("virtual-v-" : String).length = 10 := rfl
      omega
    simpa using ne_append_self ("virtual-v-" ++ start.id ++ "-") endRoom.id hq
  have hgs : getShortestPath start endRoom allRooms =
      createGridBasedPath start endRoom allRooms := by
    rw [getShortestPath, if_pos (Or.inl hconn)]
  rw [hgs, createGridBasedPath, gridLegs, h2]
  rw [if_neg (by simpa using fun h => hne h.symm)]
  simp

/-- C6 amended witness: the concrete isolated scenario produces exactly the
four-element path with the two virtual waypoints. -/
theorem claim_C6_amended_witness :
    (exA.connections = [] ∧ 20 < |exB.x - exA.x| ∧ 20 < |exB.y - exA.y|) ∧
      getShortestPath exA exB [] =
        [exA,
         ⟨"virtual-h-" ++ exA.id ++ "-" ++ exB.id, "Corridor", exB.x, exA.y, [],
          RoomType.waypoint⟩,
         ⟨"virtual-v-" ++ exA.id ++ "-" ++ exB.id, "Corridor", exB.x, exB.y, [],
          RoomType.waypoint⟩,
         exB] := by
  refine ⟨⟨rfl, by norm_num [exA, exB], by norm_num [exA, exB]⟩, ?_⟩
  exact claim_C6_amended exA exB [] rfl (by norm_num [exA, exB]) (by norm_num [exA, exB])
    rfl rfl rfl rfl

/-! ### Membership analysis for claim C9 -/

theorem getLastD_mem (l : List Room) (h : l ≠ []) (d : Room) : l.getLastD d ∈ l := by
  rw [List.getLastD_eq_getLast?, List.getLast?_eq_getLast_of_ne_nil h]
  exact List.getLast_mem h

theorem nearestFold_mem (room : Room) : ∀ (l : List Room) (a : Room),
    l.foldl (fun nearest w => if distSq room w < distSq room nearest then w else nearest) a ∈
      a :: l := by
  intro l
  induction l with
  | nil => intro a; simp
  | cons b t ih =>
      intro a
      simp only [List.foldl_cons]
      have h2 := ih (if distSq room b < distSq room a then b else a)
      rcases List.mem_cons.mp h2 with h1 | h1
      · rw [h1]
        split
        · simp
        · simp
      · exact List.mem_cons_of_mem _ (List.mem_cons_of_mem _ h1)

theorem findNearestWaypoint_mem (room : Room) (waypoints : List Room) (w : Room)
    (h : findNearestWaypoint room waypoints = some w) : w ∈ waypoints := by
  cases waypoints with
  | nil => simp [findNearestWaypoint] at h
  | cons w0 rest =>
      rw [findNearestWaypoint] at h
      injection h with h
      rw [← h]
      exact nearestFold_mem room rest w0

theorem gridWaypoints_mem (allRooms : List Room) (r : Room) (h : r ∈ gridWaypoints allRooms) :
    r ∈ allRooms :=
  (List.mem_filter.mp h).1

theorem gridWaypointNear_mem (waypoints : List Room) (tx ty : ℚ) (w : Room)
    (h : gridWaypointNear waypoints tx ty = some w) : w ∈ waypoints :=
  List.mem_of_find?_eq_some h

theorem findRouteThroughWaypoints_mem (start endRoom : Room) (wps rooms : List Room) (r : Room)
    (h : r ∈ findRouteThroughWaypoints start endRoom wps rooms) :
    r = start ∨ r = endRoom ∨ r ∈ wps ∨
      r = ⟨"corner-" ++ start.id ++ "-" ++ endRoom.id, "Corner", endRoom.x, start.y, [],
        RoomType.waypoint⟩ := by
  simp only [findRouteThroughWaypoints] at h
  split at h
  · rename_i w heq
    have hw : w ∈ wps := by
      have := List.mem_of_find?_eq_some heq
      rw [List.mem_mergeSort] at this
      exact (List.mem_filter.mp this).1
    rcases List.mem_cons.mp h with h1 | h1
    · exact Or.inl h1
    · rcases List.mem_cons.mp h1 with h2 | h2
      · exact Or.inr (Or.inr (Or.inl (h2 ▸ hw)))
      · simp at h2
        exact Or.inr (Or.inl h2)
  · rcases List.mem_cons.mp h with h1 | h1
    · exact Or.inl h1
    · rcases List.mem_cons.mp h1 with h2 | h2
      · exact Or.inr (Or.inr (Or.inr h2))
      · simp at h2
        exact Or.inr (Or.inl h2)

theorem gridPath1_mem (start endRoom : Room) (allRooms wps : List Room) (r : Room)
    (h : r ∈ gridPath1 start endRoom allRooms wps) :
    r = start ∨ r ∈ wps ∨ VirtualLike r := by
  rw [gridPath1] at h
  split at h
  · split at h
    · rename_i w heq
      rcases List.mem_cons.mp h with h1 | h1
      · exact Or.inl h1
      · simp at h1
        exact Or.inr (Or.inl (h1 ▸ gridWaypointNear_mem wps endRoom.x start.y w heq))
    · split at h
      · split at h
        · rename_i cw heq
          rcases List.mem_cons.mp h with h1 | h1
          · exact Or.inl h1
          · simp at h1
            exact Or.inr (Or.inl (h1 ▸ findNearestWaypoint_mem start wps cw heq))
        · simp at h
          exact Or.inl h
      · rcases List.mem_cons.mp h with h1 | h1
        · exact Or.inl h1
        · simp at h1
          exact Or.inr (Or.inr ⟨by rw [h1], start.id, endRoom.id, Or.inl (by rw [h1])⟩)
  · simp at h
    exact Or.inl h

theorem gridPath2_mem (start endRoom : Room) (allRooms wps p1 : List Room) (r : Room)
    (hp1 : p1 ≠ []) (h : r ∈ gridPath2 start endRoom allRooms wps p1) :
    r ∈ p1 ∨ r ∈ wps ∨ r = endRoom ∨ VirtualLike r := by
  rw [gridPath2] at h
  split at h
  · split at h
    · rename_i w heq
      rcases List.mem_append.mp h with h1 | h1
      · exact Or.inl h1
      · simp at h1
        exact Or.inr (Or.inl (h1 ▸ gridWaypointNear_mem wps (p1.getLastD start).x endRoom.y w heq))
    · split at h
      · rcases List.mem_append.mp h with h1 | h1
        · exact Or.inl h1
        · have h2 : r ∈ findRouteThroughWaypoints (p1.getLastD start) endRoom wps allRooms :=
            List.mem_of_mem_drop h1
          rcases findRouteThroughWaypoints_mem (p1.getLastD start) endRoom wps allRooms r h2
            with h3 | h3 | h3 | h3
          · exact Or.inl (h3 ▸ getLastD_mem p1 hp1 start)
          · exact Or.inr (Or.inr (Or.inl h3))
          · exact Or.inr (Or.inl h3)
          · exact Or.inr (Or.inr (Or.inr ⟨by rw [h3], (p1.getLastD start).id, endRoom.id,
              Or.inr (Or.inr (by rw [h3]))⟩))
      · rcases List.mem_append.mp h with h1 | h1
        · exact Or.inl h1
        · simp at h1
          exact Or.inr (Or.inr (Or.inr ⟨by rw [h1], start.id, endRoom.id,
            Or.inr (Or.inl (by rw [h1]))⟩))
  · exact Or.inl h

theorem createGridBasedPath_mem (start endRoom : Room) (allRooms : List Room) (r : Room)
    (h : r ∈ createGridBasedPath start endRoom allRooms) :
    r = start ∨ r = endRoom ∨ r ∈ allRooms ∨ VirtualLike r := by
  obtain ⟨t1, hcons⟩ := gridPath1_cons start endRoom allRooms (gridWaypoints allRooms)
  have hp1 : gridPath1 start endRoom allRooms (gridWaypoints allRooms) ≠ [] := by
    rw [hcons]; simp
  have hlegs : r ∈ gridLegs start endRoom allRooms → r = start ∨ r = endRoom ∨
      r ∈ allRooms ∨ VirtualLike r := by
    intro hg
    rcases gridPath2_mem start endRoom allRooms (gridWaypoints allRooms) _ r hp1 hg
      with h1 | h1 | h1 | h1
    · rcases gridPath1_mem start endRoom allRooms (gridWaypoints allRooms) r h1
        with h2 | h2 | h2
      · exact Or.inl h2
      · exact Or.inr (Or.inr (Or.inl (gridWaypoints_mem allRooms r h2)))
      · exact Or.inr (Or.inr (Or.inr h2))
    · exact Or.inr (Or.inr (Or.inl (gridWaypoints_mem allRooms r h1)))
    · exact Or.inr (Or.inl h1)
    · exact Or.inr (Or.inr (Or.inr h1))
  rw [createGridBasedPath] at h
  split at h
  · exact hlegs h
  · rcases List.mem_append.mp h with h1 | h1
    · exact hlegs h1
    · simp at h1
      exact Or.inr (Or.inl h1)

theorem workingRooms_mem (start endRoom : Room) (allRooms : List Room) (r : Room)
    (h : r ∈ workingRooms start endRoom allRooms) :
    r ∈ allRooms ∨ r = start ∨ r = endRoom := by
  simp only [workingRooms] at h
  split at h
  · split at h
    · exact Or.inl h
    · rcases List.mem_append.mp h with h1 | h1
      · exact Or.inl h1
      · simp at h1
        exact Or.inr (Or.inr h1)
  · split at h
    · rcases List.mem_append.mp h with h1 | h1
      · exact Or.inl h1
      · simp at h1
        exact Or.inr (Or.inl h1)
    · rcases List.mem_append.mp h with h1 | h1
      · rcases List.mem_append.mp h1 with h2 | h2
        · exact Or.inl h2
        · simp at h2
          exact Or.inr (Or.inl h2)
      · simp at h1
        exact Or.inr (Or.inr h1)

theorem reconstructPath_mem (rooms : List Room) (prev : String → Option String) :
    ∀ (fuel : ℕ) (cid : Option String) (acc : List Room) (r : Room),
      r ∈ reconstructPath rooms prev fuel cid acc → r ∈ rooms ∨ r ∈ acc := by
  intro fuel
  induction fuel with
  | zero =>
      intro cid acc r h
      cases cid with
      | none => exact Or.inr h
      | some c => exact Or.inr h
  | succ n ih =>
      intro cid acc r h
      cases cid with
      | none => exact Or.inr h
      | some c =>
          rw [reconstructPath] at h
          split at h
          · exact Or.inr h
          · split at h
            · exact Or.inr h
            · rename_i room heq
              rcases ih (prev c) (room :: acc) r h with h1 | h1
              · exact Or.inl h1
              · rcases List.mem_cons.mp h1 with h2 | h2
                · exact Or.inl (h2 ▸ List.mem_of_find?_eq_some heq)
                · exact Or.inr h2

/-- C9 counterexample: the input collection contains a real (non-waypoint) room
whose id is the synthesized id `virtual-h-a-b`; the path still contains a
virtual node with exactly that id, so a virtual node's id is not distinct from
every real id. -/
theorem claim_C9_counterexample :
    getShortestPath exA exB [exImpostor] = [exA, exVH, exVV, exB] ∧
      exVH ∈ getShortestPath exA exB [exImpostor] ∧
      exVH ≠ exA ∧ exVH ≠ exB ∧ exVH ∉ [exImpostor] ∧
      exVH.connections = [] ∧ exVH.id = exImpostor.id ∧ exImpostor ∈ [exImpostor] := by
  refine ⟨eval_gsp_AB2, by rw [eval_gsp_AB2]; simp, ?_, ?_, ?_, rfl, rfl, by simp⟩
  · simp [exVH, exA]
  · simp [exVH, exB]
  · simp [exVH, exImpostor]

/-- C9 amended: every element of a returned path is the start, the
destination, one of the input nodes, or a synthesized node; every synthesized
node has an empty connection list and an id following one of the three
synthesized-id patterns (so its id is distinct from every real id exactly when
no input node uses such an id — which the engine does not enforce). -/
theorem claim_C9_amended (start endRoom : Room) (allRooms : List Room) (r : Room)
    (h : r ∈ getShortestPath start endRoom allRooms) :
    r = start ∨ r = endRoom ∨ r ∈ allRooms ∨ VirtualLike r := by
  rw [getShortestPath] at h
  split at h
  · exact createGridBasedPath_mem start endRoom allRooms r h
  · split at h
    · exact createGridBasedPath_mem start endRoom allRooms r h
    · rename_i r0 t heq
      split at h
      · have hd : r ∈ dijkstraSearch start endRoom (workingRooms start endRoom allRooms) := by
          rw [heq]
          exact h
        rw [dijkstraSearch] at hd
        rcases reconstructPath_mem (workingRooms start endRoom allRooms) _
            ((workingRooms start endRoom allRooms).length + 2) (some endRoom.id) [] r hd
          with h1 | h1
        · rcases workingRooms_mem start endRoom allRooms r h1 with h2 | h2 | h2
          · exact Or.inr (Or.inr (Or.inl h2))
          · exact Or.inl h2
          · exact Or.inr (Or.inl h2)
        · simp at h1
      · exact createGridBasedPath_mem start endRoom allRooms r h

/-- C9 amended witness: the horizontal virtual waypoint of the isolated
scenario is in the returned path and satisfies the synthesized-node shape. -/
theorem claim_C9_amended_witness :
    exVH ∈ getShortestPath exA exB [] ∧
      (exVH = exA ∨ exVH = exB ∨ exVH ∈ ([] : List Room) ∨ VirtualLike exVH) := by
  have hm : exVH ∈ getShortestPath exA exB [] := by
    rw [eval_gsp_AB]
    simp
  exact ⟨hm, claim_C9_amended exA exB [] exVH hm⟩

/-! ### The minimum scan, the id set, and the working list -/

theorem scanFold_cons (d : String → WithTop ℝ) (a : String) (t : List String)
    (b : Option String × WithTop ℝ) :
    scanFold d (a :: t) b = scanFold d t (if d a < b.2 then (some a, d a) else b) := rfl

theorem scanFold_spec (d : String → WithTop ℝ) :
    ∀ (u : List String) (b : Option String × WithTop ℝ),
      (scanFold d u b = b ∨ ∃ x ∈ u, (scanFold d u b).1 = some x ∧
        (scanFold d u b).2 = d x ∧ (scanFold d u b).2 < b.2) ∧
      ∀ y ∈ u, (scanFold d u b).2 ≤ d y := by
  intro u
  induction u with
  | nil => intro b; exact ⟨Or.inl rfl, by simp⟩
  | cons a t ih =>
      intro b
      rw [scanFold_cons]
      by_cases hlt : d a < b.2
      · rw [if_pos hlt]
        obtain ⟨hcases, hle⟩ := ih (some a, d a)
        have hsnd : (scanFold d t (some a, d a)).2 ≤ d a := by
          rcases hcases with h1 | ⟨x, hx, h2, h3, h4⟩
          · rw [h1]
          · exact le_of_lt h4
        constructor
        · rcases hcases with h1 | ⟨x, hx, h2, h3, h4⟩
          · right
            exact ⟨a, by simp, by rw [h1], by rw [h1], by rw [h1]; exact hlt⟩
          · right
            exact ⟨x, List.mem_cons_of_mem a hx, h2, h3, h4.trans hlt⟩
        · intro y hy
          rcases List.mem_cons.mp hy with h1 | h1
          · rw [h1]; exact hsnd
          · exact hle y h1
      · rw [if_neg hlt]
        obtain ⟨hcases, hle⟩ := ih b
        have hsnd : (scanFold d t b).2 ≤ b.2 := by
          rcases hcases with h1 | ⟨x, hx, h2, h3, h4⟩
          · rw [h1]
          · exact le_of_lt h4
        constructor
        · rcases hcases with h1 | ⟨x, hx, h2, h3, h4⟩
          · exact Or.inl h1
          · exact Or.inr ⟨x, List.mem_cons_of_mem a hx, h2, h3, h4⟩
        · intro y hy
          rcases List.mem_cons.mp hy with h1 | h1
          · rw [h1]
            exact hsnd.trans (not_lt.mp hlt)
          · exact hle y h1

theorem scanMin_spec (d : String → WithTop ℝ) (u : List String) (c : String)
    (h : scanMin d u = some c) : c ∈ u ∧ d c ≠ ⊤ ∧ ∀ y ∈ u, d c ≤ d y := by
  obtain ⟨hcases, hle⟩ := scanFold_spec d u ((none : Option String), (⊤ : WithTop ℝ))
  rw [scanMin] at h
  rcases hcases with h1 | ⟨x, hx, h2, h3, h4⟩
  · rw [h1] at h
    simp at h
  · rw [h2] at h
    injection h with h
    subst h
    refine ⟨hx, ?_, ?_⟩
    · rw [← h3]
      exact ne_top_of_lt h4
    · intro y hy
      rw [← h3]
      exact hle y hy

theorem scanMin_none (d : String → WithTop ℝ) (u : List String)
    (h : scanMin d u = none) : ∀ y ∈ u, d y = ⊤ := by
  obtain ⟨hcases, hle⟩ := scanFold_spec d u ((none : Option String), (⊤ : WithTop ℝ))
  rcases hcases with h1 | ⟨x, hx, h2, h3, h4⟩
  · intro y hy
    have h2 := hle y hy
    rw [h1] at h2
    exact top_le_iff.mp h2
  · rw [scanMin, h2] at h
    simp at h

theorem scanMin_init (sid : String) (u : List String) (h : sid ∈ u) :
    scanMin (fun id => if id = sid then (0 : WithTop ℝ) else ⊤) u = some sid := by
  rcases hs : scanMin (fun id => if id = sid then (0 : WithTop ℝ) else ⊤) u with _ | c
  · exfalso
    have h2 := scanMin_none _ u hs sid h
    simp at h2
  · obtain ⟨hc, hne, -⟩ := scanMin_spec _ u c hs
    by_cases hcs : c = sid
    · rw [hcs]
    · exfalso
      apply hne
      simp [hcs]

theorem setAddList_aux_mem (l : List String) :
    ∀ (acc : List String) (x : String),
      x ∈ l.foldl (fun acc id => if id ∈ acc then acc else acc ++ [id]) acc ↔
        x ∈ acc ∨ x ∈ l := by
  induction l with
  | nil => intro acc x; simp
  | cons a t ih =>
      intro acc x
      simp only [List.foldl_cons]
      rw [ih]
      by_cases ha : a ∈ acc
      · rw [if_pos ha]
        constructor
        · rintro (h1 | h1)
          · exact Or.inl h1
          · exact Or.inr (List.mem_cons_of_mem a h1)
        · rintro (h1 | h1)
          · exact Or.inl h1
          · rcases List.mem_cons.mp h1 with h2 | h2
            · exact Or.inl (h2 ▸ ha)
            · exact Or.inr h2
      · rw [if_neg ha]
        simp only [List.mem_append, List.mem_singleton, List.mem_cons]
        tauto

theorem setAddList_mem (l : List String) (x : String) : x ∈ setAddList l ↔ x ∈ l := by
  rw [setAddList, setAddList_aux_mem]
  simp

theorem workingRooms_exists_start (start endRoom : Room) (allRooms : List Room) :
    ∃ r ∈ workingRooms start endRoom allRooms, r.id = start.id := by
  simp only [workingRooms]
  by_cases h1 : (allRooms.any fun r => decide (r.id = start.id)) = true
  · rw [if_pos h1]
    obtain ⟨r, hr, hid⟩ := List.any_eq_true.mp h1
    split
    · exact ⟨r, hr, of_decide_eq_true hid⟩
    · exact ⟨r, List.mem_append_left _ hr, of_decide_eq_true hid⟩
  · rw [if_neg h1]
    split
    · exact ⟨start, List.mem_append_right _ (by simp), rfl⟩
    · exact ⟨start, List.mem_append_left _ (List.mem_append_right _ (by simp)), rfl⟩

theorem workingRooms_exists_end (start endRoom : Room) (allRooms : List Room) :
    ∃ r ∈ workingRooms start endRoom allRooms, r.id = endRoom.id := by
  simp only [workingRooms]
  by_cases h1 : (allRooms.any fun r => decide (r.id = start.id)) = true
  · rw [if_pos h1]
    by_cases h2 : (allRooms.any fun r => decide (r.id = endRoom.id)) = true
    · rw [if_pos h2]
      obtain ⟨r, hr, hid⟩ := List.any_eq_true.mp h2
      exact ⟨r, hr, of_decide_eq_true hid⟩
    · rw [if_neg h2]
      exact ⟨endRoom, List.mem_append_right _ (by simp), rfl⟩
  · rw [if_neg h1]
    by_cases h2 : ((allRooms ++ [start]).any fun r => decide (r.id = endRoom.id)) = true
    · rw [if_pos h2]
      obtain ⟨r, hr, hid⟩ := List.any_eq_true.mp h2
      exact ⟨r, hr, of_decide_eq_true hid⟩
    · rw [if_neg h2]
      exact ⟨endRoom, List.mem_append_right _ (by simp), rfl⟩

theorem find?_id_unique (sid : String) (s : Room) :
    ∀ (l : List Room), (∀ t ∈ l, t.id = sid → t = s) → (∃ t ∈ l, t.id = sid) →
      l.find? (fun r => r.id = sid) = some s := by
  intro l
  induction l with
  | nil => simp
  | cons a t ih =>
      intro hall hex
      by_cases ha : a.id = sid
      · rw [List.find?_cons_of_pos _ (by simp [ha])]
        rw [hall a (List.mem_cons_self a t) ha]
      · rw [List.find?_cons_of_neg _ (by simp [ha])]
        apply ih (fun r hr => hall r (List.mem_cons_of_mem a hr))
        obtain ⟨r, hr, hid⟩ := hex
        rcases List.mem_cons.mp hr with h1 | h1
        · exact absurd (h1 ▸ hid) ha
        · exact ⟨r, h1, hid⟩

/-! ### Claim C10: routing a node to itself -/

theorem createGridBasedPath_self (s : Room) (allRooms : List Room) :
    createGridBasedPath s s allRooms = [s] := by
  have h1 : gridPath1 s s allRooms (gridWaypoints allRooms) = [s] := by
    rw [gridPath1, if_neg (by simp)]
  have h2 : gridPath2 s s allRooms (gridWaypoints allRooms) [s] = [s] := by
    rw [gridPath2, if_neg (by simp)]
  rw [createGridBasedPath, gridLegs, h1, h2]
  simp

theorem dijkstraLoop_start_eq_end (rooms : List Room) (sid : String) (fuel : ℕ)
    (h : sid ∈ setAddList (rooms.map Room.id)) :
    dijkstraLoop sid rooms (fuel + 1) (initState sid rooms) = initState sid rooms := by
  have hu : (initState sid rooms).unvisited = setAddList (rooms.map Room.id) := rfl
  have hscan : scanMin (initState sid rooms).dist (initState sid rooms).unvisited =
      some sid := by
    rw [hu]
    exact scanMin_init sid _ h
  rw [dijkstraLoop, if_neg (by rw [hu]; exact List.ne_nil_of_mem h), hscan]
  simp

/-- C10 counterexample: calling `getShortestPath` with the same node as start
and destination does not always return that node itself — when the input
collection contains a different node with the same id, the graph branch
resolves the id against the collection and returns the impostor. -/
theorem claim_C10_counterexample :
    getShortestPath exS10 exS10 [exT10] = [exT10] ∧
      getShortestPath exS10 exS10 [exT10] ≠ [exS10] ∧ exT10.id = exS10.id := by
  have hwr : workingRooms exS10 exS10 [exT10] = [exT10] := by
    simp [workingRooms, exS10, exT10]
  have heval : getShortestPath exS10 exS10 [exT10] = [exT10] := by
    rw [getShortestPath, if_neg (by simp [exS10])]
    have hmem : exS10.id ∈ setAddList (([exT10] : List Room).map Room.id) := by
      rw [setAddList_mem]
      simp [exS10, exT10]
    have hds : dijkstraSearch exS10 exS10 (workingRooms exS10 exS10 [exT10]) = [exT10] := by
      rw [hwr, dijkstraSearch, dijkstraLoop_start_eq_end [exT10] exS10.id _ hmem]
      simp [reconstructPath, initState, exS10, exT10]
    rw [hds]
    simp [exT10, exS10]
  refine ⟨heval, ?_, rfl⟩
  rw [heval]
  simp [exT10, exS10]

/-- C10 amended: routing a node `s` to itself returns a one-element path whose
element carries the id `s.id`; it is exactly `[s]` whenever every node of the
collection that shares `s.id` is `s` itself (in particular when `s` is in the
collection, or absent from it), in both the graph-search branch (the first
scan selects the destination immediately) and the grid branch (both legs are
skipped). -/
theorem claim_C10_self_route (s : Room) (allRooms : List Room)
    (himp : ∀ t ∈ allRooms, t.id = s.id → t = s) :
    getShortestPath s s allRooms = [s] := by
  by_cases hc : s.connections = []
  · rw [getShortestPath, if_pos (Or.inl hc)]
    exact createGridBasedPath_self s allRooms
  · rw [getShortestPath, if_neg (by simp [hc])]
    have hmem : s.id ∈ setAddList ((workingRooms s s allRooms).map Room.id) := by
      rw [setAddList_mem]
      obtain ⟨r, hr, hid⟩ := workingRooms_exists_start s s allRooms
      exact List.mem_map.mpr ⟨r, hr, hid⟩
    have hloop := dijkstraLoop_start_eq_end (workingRooms s s allRooms) s.id
      (setAddList ((workingRooms s s allRooms).map Room.id)).length hmem
    by_cases hid0 : s.id = ""
    · have hds : dijkstraSearch s s (workingRooms s s allRooms) = [] := by
        rw [dijkstraSearch, hloop]
        have h2 : (workingRooms s s allRooms).length + 2 =
            ((workingRooms s s allRooms).length + 1) + 1 := rfl
        rw [h2, reconstructPath, if_pos hid0]
      rw [hds]
      exact createGridBasedPath_self s allRooms
    · have hfind : (workingRooms s s allRooms).find? (fun r => r.id = s.id) = some s := by
        apply find?_id_unique
        · intro t ht hid
          rcases workingRooms_mem s s allRooms t ht with h1 | h1 | h1
          · exact himp t h1 hid
          · exact h1
          · exact h1
        · exact workingRooms_exists_start s s allRooms
      have hds : dijkstraSearch s s (workingRooms s s allRooms) = [s] := by
        rw [dijkstraSearch, hloop]
        have h2 : (workingRooms s s allRooms).length + 2 =
            ((workingRooms s s allRooms).length + 1) + 1 := rfl
        rw [h2, reconstructPath, if_neg hid0, hfind]
        rfl
      rw [hds]
      simp

/-- C10 amended witness: an isolated self-route on the empty collection. -/
theorem claim_C10_self_route_witness :
    (∀ t ∈ ([] : List Room), t.id = exS10.id → t = exS10) ∧
      getShortestPath exS10 exS10 [] = [exS10] :=
  ⟨by simp, claim_C10_self_route exS10 [] (by simp)⟩

/-! ### Claim C8: directed interpretation of connections -/

theorem relaxOne_ne (currentRoom : Room) (currentId : String) (rooms : List Room)
    (st : DState) (neighborId y : String) (h : neighborId ≠ y) :
    (relaxOne currentRoom currentId rooms st neighborId).dist y = st.dist y ∧
      (relaxOne currentRoom currentId rooms st neighborId).prev y = st.prev y ∧
      (relaxOne currentRoom currentId rooms st neighborId).unvisited = st.unvisited := by
  rw [relaxOne]
  split
  · split
    · exact ⟨rfl, rfl, rfl⟩
    · simp only []
      split
      · refine ⟨?_, ?_, rfl⟩
        · simp only []
          rw [if_neg (fun hh => h hh.symm)]
        · simp only []
          rw [if_neg (fun hh => h hh.symm)]
      · exact ⟨rfl, rfl, rfl⟩
  · exact ⟨rfl, rfl, rfl⟩

theorem relaxAll_not_conn (currentRoom : Room) (currentId : String) (rooms : List Room)
    (y : String) :
    ∀ (l : List String) (st : DState), y ∉ l →
      ((l.foldl (relaxOne currentRoom currentId rooms) st).dist y = st.dist y ∧
        (l.foldl (relaxOne currentRoom currentId rooms) st).prev y = st.prev y) := by
  intro l
  induction l with
  | nil => intro st h; exact ⟨rfl, rfl⟩
  | cons n t ih =>
      intro st h
      have hn : n ≠ y := fun hh => h (hh ▸ List.mem_cons_self n t)
      have ht : y ∉ t := fun hh => h (List.mem_cons_of_mem n hh)
      obtain ⟨h1, h2, -⟩ := relaxOne_ne currentRoom currentId rooms st n y hn
      simp only [List.foldl_cons]
      obtain ⟨h3, h4⟩ := ih (relaxOne currentRoom currentId rooms st n) ht
      exact ⟨h3.trans h1, h4.trans h2⟩

/-- C8 amended: the engine interprets `connections` as directed edges.  While
processing a node, relaxation touches exactly the ids the node itself lists —
an id not listed keeps its distance and predecessor untouched, so an edge
recorded only on the other endpoint is not traversable from here.  The result
coincides with the symmetrized graph's result only when symmetrizing changes
nothing (`claim_C8_counterexample` shows a one-directional edge where the two
differ). -/
theorem claim_C8_directed_edges :
    (∀ (currentRoom : Room) (currentId : String) (rooms : List Room) (st : DState)
        (y : String), y ∉ currentRoom.connections →
        (relaxAll currentRoom currentId rooms st).dist y = st.dist y ∧
          (relaxAll currentRoom currentId rooms st).prev y = st.prev y) ∧
      (∀ (start endRoom : Room) (allRooms : List Room), symmetrize allRooms = allRooms →
        getShortestPath start endRoom allRooms =
          getShortestPath start endRoom (symmetrize allRooms)) := by
  constructor
  · intro currentRoom currentId rooms st y hy
    exact relaxAll_not_conn currentRoom currentId rooms y currentRoom.connections st hy
  · intro start endRoom allRooms h
    rw [h]

theorem eval8_symmetrize : symmetrize [exA8, exB8] = [exA8, exB8s] := by
  simp [symmetrize, exA8, exB8, exB8s]

theorem eval8_loop1 : dijkstraLoop "a" [exA8, exB8] 3 (initState "b" [exA8, exB8]) =
    ⟨(initState "b" [exA8, exB8]).dist, (initState "b" [exA8, exB8]).prev, ["a"]⟩ := by
  have hscan1 : scanMin (initState "b" [exA8, exB8]).dist
      (initState "b" [exA8, exB8]).unvisited = some "b" := by
    have hu : (initState "b" [exA8, exB8]).unvisited = ["a", "b"] := by
      simp [initState, setAddList, exA8, exB8]
    rw [hu]
    exact scanMin_init "b" ["a", "b"] (by simp)
  have hrelax : relaxAll exB8 "b" [exA8, exB8]
      ⟨(initState "b" [exA8, exB8]).dist, (initState "b" [exA8, exB8]).prev, ["a"]⟩ =
      ⟨(initState "b" [exA8, exB8]).dist, (initState "b" [exA8, exB8]).prev, ["a"]⟩ := by
    rw [relaxAll]
    simp only [show exB8.connections = ["x"] from rfl, List.foldl_cons, List.foldl_nil]
    rw [relaxOne, if_neg (by simp)]
  rw [dijkstraLoop, if_neg (by simp [initState, setAddList, exA8, exB8])]
  simp only [hscan1]
  have hu : (initState "b" [exA8, exB8]).unvisited = ["a", "b"] := by
    simp [initState, setAddList, exA8, exB8]
  rw [if_neg (by simp : ¬("b" : String) = "a"), hu]
  have herase : (["a", "b"] : List String).erase "b" = ["a"] := by simp [List.erase_cons]
  rw [herase]
  have hfind : List.find? (fun r => decide (r.id = "b")) [exA8, exB8] = some exB8 := by
    simp [exA8, exB8]
  simp only [hfind]
  rw [hrelax]
  have hscan2 : scanMin (initState "b" [exA8, exB8]).dist ["a"] = none := by
    simp [scanMin, scanFold, initState]
  rw [dijkstraLoop, if_neg (by simp), hscan2]

theorem eval8_gsp1 : getShortestPath exB8 exA8 [exA8, exB8] = [exB8, exVH8, exA8] := by
  have hwr : workingRooms exB8 exA8 [exA8, exB8] = [exA8, exB8] := by
    simp [workingRooms, exA8, exB8]
  have hgrid : createGridBasedPath exB8 exA8 [exA8, exB8] = [exB8, exVH8, exA8] := by
    have h1 : gridPath1 exB8 exA8 [exA8, exB8] (gridWaypoints [exA8, exB8]) =
        [exB8, exVH8] := by
      rw [show gridWaypoints [exA8, exB8] = [] from rfl, gridPath1]
      norm_num [gridWaypointNear, horizontalBlocked, findNearestWaypoint, exA8, exB8, exVH8]
      rfl
    have h2 : gridPath2 exB8 exA8 [exA8, exB8] (gridWaypoints [exA8, exB8])
        [exB8, exVH8] = [exB8, exVH8] := by
      rw [gridPath2, if_neg (by norm_num [exA8, exVH8, exB8])]
    rw [createGridBasedPath, gridLegs, h1, h2]
    norm_num [exVH8, exA8, exB8]
    simp
  rw [getShortestPath, if_neg (by simp [exA8, exB8])]
  have hsa : setAddList (([exA8, exB8] : List Room).map Room.id) = ["a", "b"] := by
    simp [setAddList, exA8, exB8]
  have hds : dijkstraSearch exB8 exA8 (workingRooms exB8 exA8 [exA8, exB8]) = [exA8] := by
    rw [hwr, dijkstraSearch]
    rw [show exA8.id = "a" from rfl, show exB8.id = "b" from rfl, hsa]
    rw [show (["a", "b"] : List String).length + 1 = 3 from rfl]
    rw [eval8_loop1]
    rw [show ([exA8, exB8] : List Room).length + 2 = 3 + 1 from rfl]
    rw [reconstructPath, if_neg (by simp)]
    have hfa8 : List.find? (fun r => decide (r.id = "a")) [exA8, exB8] = some exA8 := by
      simp [exA8, exB8]
    simp only [hfa8]
    rfl
  rw [hds]
  simp only []
  rw [if_neg (by simp [exA8, exB8])]
  exact hgrid

theorem eval8_loop2 : dijkstraLoop "a" [exA8, exB8s] 3 (initState "b" [exA8, exB8s]) =
    ⟨fun i => if i = "a" then
        (initState "b" [exA8, exB8s]).dist "b" + (calculateDistance exB8s exA8 : WithTop ℝ)
      else (initState "b" [exA8, exB8s]).dist i,
     fun i => if i = "a" then some "b" else (initState "b" [exA8, exB8s]).prev i,
     ["a"]⟩ := by
  have hscan1 : scanMin (initState "b" [exA8, exB8s]).dist
      (initState "b" [exA8, exB8s]).unvisited = some "b" := by
    have hu : (initState "b" [exA8, exB8s]).unvisited = ["a", "b"] := by
      simp [initState, setAddList, exA8, exB8s]
    rw [hu]
    exact scanMin_init "b" ["a", "b"] (by simp)
  have hx : relaxOne exB8s "b" [exA8, exB8s]
      ⟨(initState "b" [exA8, exB8s]).dist, (initState "b" [exA8, exB8s]).prev, ["a"]⟩ "x" =
      ⟨(initState "b" [exA8, exB8s]).dist, (initState "b" [exA8, exB8s]).prev, ["a"]⟩ := by
    rw [relaxOne, if_neg (by simp)]
  have hfa : List.find? (fun r => decide (r.id = "a")) [exA8, exB8s] = some exA8 := by
    simp [exA8, exB8s]
  have hlt : (initState "b" [exA8, exB8s]).dist "b" +
      (calculateDistance exB8s exA8 : WithTop ℝ) <
      (initState "b" [exA8, exB8s]).dist "a" := by
    simp [initState]
  have ha : relaxOne exB8s "b" [exA8, exB8s]
      ⟨(initState "b" [exA8, exB8s]).dist, (initState "b" [exA8, exB8s]).prev, ["a"]⟩ "a" =
      ⟨fun i => if i = "a" then
          (initState "b" [exA8, exB8s]).dist "b" + (calculateDistance exB8s exA8 : WithTop ℝ)
        else (initState "b" [exA8, exB8s]).dist i,
       fun i => if i = "a" then some "b" else (initState "b" [exA8, exB8s]).prev i,
       ["a"]⟩ := by
    rw [relaxOne, if_pos (by simp)]
    simp only [hfa]
    rw [if_pos hlt]
  have hrelax : relaxAll exB8s "b" [exA8, exB8s]
      ⟨(initState "b" [exA8, exB8s]).dist, (initState "b" [exA8, exB8s]).prev, ["a"]⟩ =
      ⟨fun i => if i = "a" then
          (initState "b" [exA8, exB8s]).dist "b" + (calculateDistance exB8s exA8 : WithTop ℝ)
        else (initState "b" [exA8, exB8s]).dist i,
       fun i => if i = "a" then some "b" else (initState "b" [exA8, exB8s]).prev i,
       ["a"]⟩ := by
    rw [relaxAll]
    simp only [show exB8s.connections = ["x", "a"] from rfl, List.foldl_cons, List.foldl_nil]
    rw [hx, ha]
  rw [dijkstraLoop, if_neg (by simp [initState, setAddList, exA8, exB8s])]
  simp only [hscan1]
  have hu : (initState "b" [exA8, exB8s]).unvisited = ["a", "b"] := by
    simp [initState, setAddList, exA8, exB8s]
  rw [if_neg (by simp : ¬("b" : String) = "a"), hu]
  have herase : (["a", "b"] : List String).erase "b" = ["a"] := by simp [List.erase_cons]
  rw [herase]
  have hfb : List.find? (fun r => decide (r.id = "b")) [exA8, exB8s] = some exB8s := by
    simp [exA8, exB8s]
  simp only [hfb]
  rw [hrelax]
  have hscan2 : scanMin (fun i => if i = "a" then
      (initState "b" [exA8, exB8s]).dist "b" + (calculateDistance exB8s exA8 : WithTop ℝ)
      else (initState "b" [exA8, exB8s]).dist i) ["a"] = some "a" := by
    simp [scanMin, scanFold, initState]
  rw [dijkstraLoop, if_neg (by simp), hscan2]
  simp

theorem eval8_gsp2 : getShortestPath exB8 exA8 [exA8, exB8s] = [exB8s, exA8] := by
  have hwr : workingRooms exB8 exA8 [exA8, exB8s] = [exA8, exB8s] := by
    simp [workingRooms, exA8, exB8, exB8s]
  rw [getShortestPath, if_neg (by simp [exA8, exB8])]
  have hsa : setAddList (([exA8, exB8s] : List Room).map Room.id) = ["a", "b"] := by
    simp [setAddList, exA8, exB8s]
  have hds : dijkstraSearch exB8 exA8 (workingRooms exB8 exA8 [exA8, exB8s]) =
      [exB8s, exA8] := by
    rw [hwr, dijkstraSearch]
    rw [show exA8.id = "a" from rfl, show exB8.id = "b" from rfl, hsa]
    rw [show (["a", "b"] : List String).length + 1 = 3 from rfl]
    rw [eval8_loop2]
    simp [reconstructPath, initState, exA8, exB8s]
  rw [hds]
  simp only []
  rw [if_pos (show exB8s.id = exB8.id from rfl)]

/-- C8 counterexample: `exA8` lists `exB8` but not conversely; routing from
`exB8` to `exA8` on the original graph cannot traverse the edge (the search
fails and the grid synthesizer answers), while the symmetrized graph routes
straight across it, so the two results differ. -/
theorem claim_C8_counterexample :
    exB8.id ∈ exA8.connections ∧
      symmetrize [exA8, exB8] = [exA8, exB8s] ∧
      getShortestPath exB8 exA8 [exA8, exB8] = [exB8, exVH8, exA8] ∧
      getShortestPath exB8 exA8 (symmetrize [exA8, exB8]) = [exB8s, exA8] ∧
      getShortestPath exB8 exA8 [exA8, exB8] ≠
        getShortestPath exB8 exA8 (symmetrize [exA8, exB8]) := by
  refine ⟨by simp [exA8, exB8], eval8_symmetrize, eval8_gsp1, ?_, ?_⟩
  · rw [eval8_symmetrize]
    exact eval8_gsp2
  · rw [eval8_gsp1, eval8_symmetrize, eval8_gsp2]
    simp

/-! ### Claim C2: support lemmas on lookups, path costs and connection paths -/

theorem find?_id_props (l : List Room) (x : String) (r : Room)
    (h : l.find? (fun t => t.id = x) = some r) : r ∈ l ∧ r.id = x := by
  refine ⟨List.mem_of_find?_eq_some h, ?_⟩
  have h1 := List.find?_some h
  simpa using h1

theorem find?_id_exists (l : List Room) (x : String) (hx : x ∈ l.map Room.id) :
    ∃ r, l.find? (fun t => t.id = x) = some r := by
  rcases h : l.find? (fun t => t.id = x) with _ | r
  · exfalso
    obtain ⟨r, hr, hid⟩ := List.mem_map.mp hx
    have h2 := List.find?_eq_none.mp h r hr
    simp [hid] at h2
  · exact ⟨r, h⟩

theorem find?_of_mem_nodup (l : List Room) (hnd : (l.map Room.id).Nodup) (s : Room)
    (hs : s ∈ l) : l.find? (fun t => t.id = s.id) = some s :=
  find?_id_unique s.id s l (fun _t ht hid => List.inj_on_of_nodup_map hnd ht hs hid)
    ⟨s, hs, rfl⟩

theorem setAddList_aux_nodup (l : List String) :
    ∀ acc : List String, acc.Nodup →
      (l.foldl (fun acc id => if id ∈ acc then acc else acc ++ [id]) acc).Nodup := by
  induction l with
  | nil => intro acc h; exact h
  | cons a t ih =>
      intro acc h
      simp only [List.foldl_cons]
      by_cases ha : a ∈ acc
      · rw [if_pos ha]; exact ih acc h
      · rw [if_neg ha]
        apply ih
        simp [List.nodup_append, h, ha]

theorem setAddList_nodup (l : List String) : (setAddList l).Nodup :=
  setAddList_aux_nodup l [] List.nodup_nil

theorem pathCost_nonneg : ∀ p : List Room, 0 ≤ pathCost p := by
  intro p
  induction p with
  | nil => rw [pathCost]
  | cons u t ih =>
      cases t with
      | nil => rw [pathCost]
      | cons v rest =>
          rw [pathCost]
          exact add_nonneg (calculateDistance_nonneg u v) ih

theorem pathCost_cons_cons (u v : Room) (rest : List Room) :
    pathCost (u :: v :: rest) = calculateDistance u v + pathCost (v :: rest) := by
  rw [pathCost]

theorem pathCost_concat : ∀ (p : List Room) (u v : Room), p.getLast? = some u →
    pathCost (p ++ [v]) = pathCost p + calculateDistance u v := by
  intro p
  induction p with
  | nil => intro u v h; simp at h
  | cons a t ih =>
      intro u v h
      cases t with
      | nil =>
          simp at h
          subst h
          simp only [List.cons_append, List.nil_append, pathCost_cons_cons]
          rw [pathCost, pathCost]
          ring
      | cons b t' =>
          rw [List.getLast?_cons_cons] at h
          have ih2 := ih u v h
          rw [List.cons_append] at ih2
          simp only [List.cons_append, pathCost_cons_cons]
          rw [ih2, add_assoc]

theorem pathCost_append_cons : ∀ (p1 : List Room) (y : Room) (p2 : List Room),
    pathCost (p1 ++ y :: p2) = pathCost (p1 ++ [y]) + pathCost (y :: p2) := by
  intro p1
  induction p1 with
  | nil =>
      intro y p2
      simp only [List.nil_append]
      rw [pathCost]
      ring
  | cons a t ih =>
      intro y p2
      cases t with
      | nil =>
          simp only [List.cons_append, List.nil_append, pathCost_cons_cons]
          rw [pathCost]
          ring
      | cons b t' =>
          have ih2 := ih y p2
          rw [List.cons_append, List.cons_append] at ih2
          simp only [List.cons_append, pathCost_cons_cons]
          rw [ih2]
          ring

theorem connPath_singleton (rooms : List Room) (a : Room) (ha : a ∈ rooms) :
    IsConnPath rooms a a [a] := by
  refine ⟨by simp, rfl, rfl, ?_, List.chain'_singleton a⟩
  intro r hr
  rw [List.mem_singleton] at hr
  exact hr ▸ ha

theorem connPath_extend (rooms : List Room) (a u v : Room) (p : List Room)
    (hp : IsConnPath rooms a u p) (hv : v ∈ rooms) (he : v.id ∈ u.connections) :
    IsConnPath rooms a v (p ++ [v]) := by
  obtain ⟨hne, hhead, hlast, hmem, hchain⟩ := hp
  refine ⟨by simp, ?_, List.getLast?_concat p, ?_, ?_⟩
  · rw [List.head?_append_of_ne_nil p hne, hhead]
  · intro r hr
    rcases List.mem_append.mp hr with h1 | h1
    · exact hmem r h1
    · rw [List.mem_singleton] at h1
      exact h1 ▸ hv
  · refine List.chain'_append.mpr ⟨hchain, List.chain'_singleton v, ?_⟩
    intro x hx y hy
    rw [hlast] at hx
    simp at hx hy
    subst hx
    subst hy
    exact he

theorem connPath_split (rooms : List Room) (a b y : Room) (p1 p2 : List Room)
    (h : IsConnPath rooms a b (p1 ++ y :: p2)) :
    IsConnPath rooms a y (p1 ++ [y]) ∧
      ∀ u, p1.getLast? = some u → y.id ∈ u.connections := by
  obtain ⟨hne, hhead, hlast, hmem, hchain⟩ := h
  obtain ⟨hch1, hch2, hjun⟩ := List.chain'_append.mp hchain
  constructor
  · refine ⟨by simp, ?_, List.getLast?_concat p1, ?_, ?_⟩
    · cases p1 with
      | nil =>
          rw [List.nil_append] at hhead ⊢
          rw [List.head?_cons] at hhead
          rw [List.head?_cons, hhead]
      | cons c t =>
          rw [List.cons_append] at hhead
          rw [List.cons_append, List.head?_cons, ← hhead, List.head?_cons]
    · intro r hr
      rcases List.mem_append.mp hr with h1 | h1
      · exact hmem r (List.mem_append_left _ h1)
      · rw [List.mem_singleton] at h1
        exact hmem r (List.mem_append_right _ (h1 ▸ List.mem_cons_self y p2))
    · refine List.chain'_append.mpr ⟨hch1, List.chain'_singleton y, ?_⟩
      intro x hx z hz
      simp at hz
      subst hz
      exact hjun x hx y (by rw [List.head?_cons]; rfl)
  · intro u hu
    exact hjun u (by rw [hu]; rfl) y (by rw [List.head?_cons]; rfl)

theorem split_first_not (P : Room → Prop) : ∀ p : List Room,
    (∀ r ∈ p, P r) ∨
      ∃ p1 y p2, p = p1 ++ y :: p2 ∧ (∀ r ∈ p1, P r) ∧ ¬ P y := by
  intro p
  induction p with
  | nil => exact Or.inl (by simp)
  | cons a t ih =>
      by_cases ha : P a
      · rcases ih with h1 | ⟨p1, y, p2, heq, hall, hy⟩
        · left
          intro r hr
          rcases List.mem_cons.mp hr with h2 | h2
          · exact h2 ▸ ha
          · exact h1 r h2
        · right
          refine ⟨a :: p1, y, p2, by rw [heq, List.cons_append], ?_, hy⟩
          intro r hr
          rcases List.mem_cons.mp hr with h2 | h2
          · exact h2 ▸ ha
          · exact hall r h2
      · exact Or.inr ⟨[], a, t, by simp, by simp, ha⟩

theorem relaxOne_unvisited (cr : Room) (cid : String) (rooms : List Room) (st : DState)
    (n : String) : (relaxOne cr cid rooms st n).unvisited = st.unvisited := by
  rw [relaxOne]
  split
  · split
    · rfl
    · simp only []
      split
      · rfl
      · rfl
  · rfl

theorem relaxOne_cases (cr : Room) (cid : String) (rooms : List Room) (st : DState)
    (n : String) :
    relaxOne cr cid rooms st n = st ∨
      (n ∈ st.unvisited ∧ ∃ ry : Room, rooms.find? (fun t => t.id = n) = some ry ∧
        st.dist cid + (calculateDistance cr ry : WithTop ℝ) < st.dist n ∧
        relaxOne cr cid rooms st n =
          ⟨fun i => if i = n then st.dist cid + (calculateDistance cr ry : WithTop ℝ)
              else st.dist i,
            fun i => if i = n then some cid else st.prev i, st.unvisited⟩) := by
  rw [relaxOne]
  by_cases hn : n ∈ st.unvisited
  · rw [if_pos hn]
    rcases hf : rooms.find? (fun r => r.id = n) with _ | ry
    · rw [hf]
      exact Or.inl rfl
    · rw [hf]
      simp only []
      by_cases hlt : st.dist cid + (calculateDistance cr ry : WithTop ℝ) < st.dist n
      · rw [if_pos hlt]
        exact Or.inr ⟨hn, ry, rfl, hlt, rfl⟩
      · rw [if_neg hlt]
        exact Or.inl rfl
  · rw [if_neg hn]
    exact Or.inl rfl

theorem relaxOne_mono (cr : Room) (cid : String) (rooms : List Room) (st : DState)
    (n y : String) : (relaxOne cr cid rooms st n).dist y ≤ st.dist y := by
  rcases relaxOne_cases cr cid rooms st n with h | ⟨hn, ry, hf, hlt, heq⟩
  · rw [h]
  · have hd : (relaxOne cr cid rooms st n).dist y =
        if y = n then st.dist cid + (calculateDistance cr ry : WithTop ℝ)
        else st.dist y := by rw [heq]
    rw [hd]
    by_cases hy : y = n
    · rw [if_pos hy, hy]
      exact le_of_lt hlt
    · rw [if_neg hy]

theorem relaxOne_ub (cr : Room) (cid : String) (rooms : List Room) (st : DState)
    (n : String) (ry : Room) (hn : n ∈ st.unvisited)
    (hf : rooms.find? (fun t => t.id = n) = some ry) :
    (relaxOne cr cid rooms st n).dist n ≤
      st.dist cid + (calculateDistance cr ry : WithTop ℝ) := by
  rw [relaxOne, if_pos hn, hf]
  simp only []
  by_cases hlt : st.dist cid + (calculateDistance cr ry : WithTop ℝ) < st.dist n
  · rw [if_pos hlt]
    simp
  · rw [if_neg hlt]
    exact not_lt.mp hlt

theorem relaxFold_spec (cr : Room) (cid : String) (rooms : List Room) :
    ∀ (l : List String) (st : DState), cid ∉ st.unvisited →
      (l.foldl (relaxOne cr cid rooms) st).unvisited = st.unvisited ∧
      (l.foldl (relaxOne cr cid rooms) st).dist cid = st.dist cid ∧
      (∀ y, ((l.foldl (relaxOne cr cid rooms) st).dist y = st.dist y ∧
          (l.foldl (relaxOne cr cid rooms) st).prev y = st.prev y) ∨
        (y ∈ l ∧ y ∈ st.unvisited ∧ ∃ ry : Room,
          rooms.find? (fun t => t.id = y) = some ry ∧
          (l.foldl (relaxOne cr cid rooms) st).dist y =
            st.dist cid + (calculateDistance cr ry : WithTop ℝ) ∧
          (l.foldl (relaxOne cr cid rooms) st).prev y = some cid ∧
          (l.foldl (relaxOne cr cid rooms) st).dist y < st.dist y)) ∧
      (∀ y ∈ l, ∀ ry : Room, y ∈ st.unvisited →
        rooms.find? (fun t => t.id = y) = some ry →
        (l.foldl (relaxOne cr cid rooms) st).dist y ≤
          st.dist cid + (calculateDistance cr ry : WithTop ℝ)) ∧
      (∀ y, (l.foldl (relaxOne cr cid rooms) st).dist y ≤ st.dist y) := by
  intro l
  induction l with
  | nil =>
      intro st hcid
      refine ⟨rfl, rfl, fun y => Or.inl ⟨rfl, rfl⟩, ?_, fun y => le_refl _⟩
      intro y hy
      simp at hy
  | cons n t ih =>
      intro st hcid
      simp only [List.foldl_cons]
      have hu1 : (relaxOne cr cid rooms st n).unvisited = st.unvisited :=
        relaxOne_unvisited cr cid rooms st n
      have hcid1 : cid ∉ (relaxOne cr cid rooms st n).unvisited := by
        rw [hu1]; exact hcid
      obtain ⟨ihu, ihc, ihy, ihub, ihm⟩ := ih (relaxOne cr cid rooms st n) hcid1
      have h1c : (relaxOne cr cid rooms st n).dist cid = st.dist cid := by
        rcases relaxOne_cases cr cid rooms st n with h | ⟨hn, ry, hf, hlt, heq⟩
        · rw [h]
        · have hd : (relaxOne cr cid rooms st n).dist cid =
              if cid = n then st.dist cid + (calculateDistance cr ry : WithTop ℝ)
              else st.dist cid := by rw [heq]
          rw [hd, if_neg (fun (hh : cid = n) => hcid (hh.symm ▸ hn))]
      refine ⟨ihu.trans hu1, ihc.trans h1c, ?_, ?_, ?_⟩
      · intro y
        rcases ihy y with ⟨hd, hp⟩ | ⟨hyt, hyu1, ry, hf, hd, hp, hlt⟩
        · rcases relaxOne_cases cr cid rooms st n with h | ⟨hn, ry, hf, hlt, heq⟩
          · exact Or.inl ⟨hd.trans (by rw [h]), hp.trans (by rw [h])⟩
          · by_cases hy : y = n
            · right
              have hd1 : (relaxOne cr cid rooms st n).dist y =
                  st.dist cid + (calculateDistance cr ry : WithTop ℝ) := by
                rw [heq]
                simp only []
                rw [if_pos hy]
              have hp1 : (relaxOne cr cid rooms st n).prev y = some cid := by
                rw [heq]
                simp only []
                rw [if_pos hy]
              refine ⟨by rw [hy]; exact List.mem_cons_self n t, hy ▸ hn, ry,
                hy ▸ hf, hd.trans hd1, hp.trans hp1, ?_⟩
              rw [hd.trans hd1, hy]
              exact hlt
            · have hd1 : (relaxOne cr cid rooms st n).dist y = st.dist y := by
                rw [heq]
                simp only []
                rw [if_neg hy]
              have hp1 : (relaxOne cr cid rooms st n).prev y = st.prev y := by
                rw [heq]
                simp only []
                rw [if_neg hy]
              exact Or.inl ⟨hd.trans hd1, hp.trans hp1⟩
        · right
          refine ⟨List.mem_cons_of_mem n hyt, by rw [← hu1]; exact hyu1, ry, hf,
            by rw [hd, h1c], by rw [hp], ?_⟩
          exact lt_of_lt_of_le hlt (relaxOne_mono cr cid rooms st n y)
      · intro y hy ry hyu hf
        rcases List.mem_cons.mp hy with hy1 | hy1
        · subst hy1
          refine le_trans (ihm y) ?_
          refine le_trans (relaxOne_ub cr cid rooms st y ry hyu hf) ?_
          exact le_refl _
        · have h2 := ihub y hy1 ry (by rw [hu1]; exact hyu) hf
          rw [h1c] at h2
          exact h2
      · intro y
        exact le_trans (ihm y) (relaxOne_mono cr cid rooms st n y)

theorem connPath_prefix (rooms : List Room) (a b : Room) (p1 p2 : List Room) (u : Room)
    (h : IsConnPath rooms a b (p1 ++ p2)) (hne : p1 ≠ []) (hu : p1.getLast? = some u) :
    IsConnPath rooms a u p1 := by
  obtain ⟨hne0, hhead, hlast, hmem, hchain⟩ := h
  refine ⟨hne, ?_, hu, ?_, (List.chain'_append.mp hchain).1⟩
  · rw [List.head?_append_of_ne_nil p1 hne] at hhead
    exact hhead
  · intro r hr
    exact hmem r (List.mem_append_left _ hr)

theorem dinv_init (start endRoom : Room) (rooms : List Room) (hs : start ∈ rooms) :
    DInvW start endRoom rooms [] (initState start.id rooms) := by
  have hsid : start.id ∈ rooms.map Room.id := List.mem_map_of_mem Room.id hs
  refine ⟨List.nodup_nil, by simp, ?_, setAddList_nodup _, by simp, ?_, ?_, ?_, rfl,
    by simp, by simp, by simp, ?_, ?_, ?_⟩
  · intro x
    rw [show (initState start.id rooms).unvisited = setAddList (rooms.map Room.id)
      from rfl, setAddList_mem]
    simp
  · intro x hx
    have hne : x ≠ start.id := fun h => hx (h ▸ hsid)
    show (if x = start.id then (0 : WithTop ℝ) else ⊤) = ⊤
    rw [if_neg hne]
  · intro x
    show 0 ≤ (if x = start.id then (0 : WithTop ℝ) else ⊤)
    split
    · exact le_refl _
    · exact le_top
  · show (if start.id = start.id then (0 : WithTop ℝ) else ⊤) = 0
    rw [if_pos rfl]
  · intro y hy
    by_cases hx : y = start.id
    · refine Or.inr (Or.inl ⟨hx, ?_⟩)
      show (if y = start.id then (0 : WithTop ℝ) else ⊤) = 0
      rw [if_pos hx]
    · refine Or.inl ?_
      show (if y = start.id then (0 : WithTop ℝ) else ⊤) = ⊤
      rw [if_neg hx]
  · intro x u h
    exact Option.noConfusion h
  · intro x h
    by_cases hx : x = start.id
    · exact Or.inl hx
    · refine Or.inr ?_
      show (if x = start.id then (0 : WithTop ℝ) else ⊤) = ⊤
      rw [if_neg hx]

theorem dinv_select (start endRoom : Room) (rooms : List Room) (dl : List String)
    (st : DState) (hnd : (rooms.map Room.id).Nodup) (hs : start ∈ rooms)
    (inv : DInvW start endRoom rooms dl st) (cid : String)
    (hscan : scanMin st.dist st.unvisited = some cid) (rcid : Room)
    (hfc : rooms.find? (fun t => t.id = cid) = some rcid) :
    ∃ c : ℝ, st.dist cid = (c : WithTop ℝ) ∧ IsLeast (distSet rooms start rcid) c := by
  obtain ⟨hcu, hcne, hcmin⟩ := scanMin_spec st.dist st.unvisited cid hscan
  have hcdl : cid ∉ dl := ((inv.unvisited_iff cid).mp hcu).2
  obtain ⟨hrcmem, hrcid⟩ := find?_id_props rooms cid rcid hfc
  have hattained : ∃ c : ℝ, st.dist cid = (c : WithTop ℝ) ∧
      c ∈ distSet rooms start rcid := by
    rcases inv.frontier_at cid hcdl with htop | ⟨hstart, h0⟩ |
      ⟨u, hudl, ru, ry, hfu, hfy, hedge, heq⟩
    · exact absurd htop hcne
    · have hfs : rooms.find? (fun t => t.id = start.id) = some start :=
        find?_of_mem_nodup rooms hnd start hs
      have hrc : rcid = start := by
        rw [hstart] at hfc
        rw [hfc] at hfs
        exact Option.some.inj hfs
      refine ⟨0, by rw [h0]; simp, ?_⟩
      rw [hrc]
      exact ⟨[start], connPath_singleton rooms start hs, by rw [pathCost]⟩
    · obtain ⟨ru', cu, hfu', hdu, hleast⟩ := inv.settled u hudl
      have hru : ru = ru' := by
        rw [hfu] at hfu'
        exact Option.some.inj hfu'
      subst hru
      have hry : ry = rcid := by
        rw [hfy] at hfc
        exact Option.some.inj hfc
      rw [hry] at heq
      obtain ⟨pu, hpu, hcostu⟩ := hleast.1
      have hlastu : pu.getLast? = some ru := hpu.2.2.1
      refine ⟨cu + calculateDistance ru rcid, ?_, ?_⟩
      · rw [heq, hdu, WithTop.coe_add]
      · refine ⟨pu ++ [rcid],
          connPath_extend rooms start ru rcid pu hpu hrcmem
            (by rw [hrcid]; exact hedge), ?_⟩
        rw [pathCost_concat pu ru rcid hlastu, hcostu]
  obtain ⟨c, hc, hcmem⟩ := hattained
  refine ⟨c, hc, hcmem, ?_⟩
  rintro c' ⟨p, hp, hcost⟩
  have hkey : st.dist cid ≤ ((pathCost p : ℝ) : WithTop ℝ) := by
    rcases split_first_not (fun r => r.id ∈ dl) p with hall | ⟨p1, y, p2, hpe, hallp1, hy⟩
    · exfalso
      have hmem := hall rcid (List.mem_of_getLast?_eq_some hp.2.2.1)
      rw [hrcid] at hmem
      exact hcdl hmem
    · subst hpe
      obtain ⟨hpy, hjun⟩ := connPath_split rooms start rcid y p1 p2 hp
      have hymem : y ∈ rooms := hp.2.2.2.1 y (by simp)
      have hyids : y.id ∈ rooms.map Room.id := List.mem_map_of_mem Room.id hymem
      have hyu : y.id ∈ st.unvisited := (inv.unvisited_iff y.id).mpr ⟨hyids, hy⟩
      have hmin : st.dist cid ≤ st.dist y.id := hcmin y.id hyu
      cases p1 with
      | nil =>
          have hh := hp.2.1
          simp at hh
          have h0 : st.dist y.id = 0 := by
            rw [hh]
            exact inv.start_dist
          calc st.dist cid ≤ st.dist y.id := hmin
            _ = 0 := h0
            _ = ((0 : ℝ) : WithTop ℝ) := by simp
            _ ≤ ((pathCost ([] ++ y :: p2) : ℝ) : WithTop ℝ) := by
                rw [WithTop.coe_le_coe]
                exact pathCost_nonneg _
      | cons a t =>
          have hne1 : (a :: t) ≠ ([] : List Room) := by simp
          obtain ⟨u, hu⟩ : ∃ u, (a :: t).getLast? = some u :=
            ⟨(a :: t).getLast hne1, List.getLast?_eq_getLast_of_ne_nil hne1⟩
          have humem : u ∈ rooms :=
            hp.2.2.2.1 u (List.mem_append_left _ (List.mem_of_getLast?_eq_some hu))
          have hudl : u.id ∈ dl := hallp1 u (List.mem_of_getLast?_eq_some hu)
          have hfu : rooms.find? (fun t2 => t2.id = u.id) = some u :=
            find?_of_mem_nodup rooms hnd u humem
          have hfy : rooms.find? (fun t2 => t2.id = y.id) = some y :=
            find?_of_mem_nodup rooms hnd y hymem
          have hedge : y.id ∈ u.connections := hjun u hu
          have hflb := inv.frontier_lb u.id hudl y.id hy u y hfu hfy hedge
          obtain ⟨ru', cu, hfu', hdu, hleast⟩ := inv.settled u.id hudl
          have hru : u = ru' := by
            rw [hfu] at hfu'
            exact Option.some.inj hfu'
          subst hru
          have hconn1 : IsConnPath rooms start u (a :: t) :=
            connPath_prefix rooms start rcid (a :: t) (y :: p2) u hp hne1 hu
          have hcu_le : cu ≤ pathCost (a :: t) := hleast.2 ⟨a :: t, hconn1, rfl⟩
          have hsplit := pathCost_append_cons (a :: t) y p2
          have hconcat := pathCost_concat (a :: t) u y hu
          calc st.dist cid ≤ st.dist y.id := hmin
            _ ≤ st.dist u.id + ((calculateDistance u y : ℝ) : WithTop ℝ) := hflb
            _ = ((cu : ℝ) : WithTop ℝ) + ((calculateDistance u y : ℝ) : WithTop ℝ) := by
                rw [hdu]
            _ = ((cu + calculateDistance u y : ℝ) : WithTop ℝ) := by
                rw [WithTop.coe_add]
            _ ≤ ((pathCost ((a :: t) ++ y :: p2) : ℝ) : WithTop ℝ) := by
                rw [WithTop.coe_le_coe, hsplit, hconcat]
                have h2 : 0 ≤ pathCost (y :: p2) := pathCost_nonneg _
                linarith
  rw [hc] at hkey
  rw [← hcost]
  exact WithTop.coe_le_coe.mp hkey

theorem dinv_step (start endRoom : Room) (rooms : List Room) (dl : List String)
    (st : DState) (hnd : (rooms.map Room.id).Nodup) (hs : start ∈ rooms)
    (inv : DInvW start endRoom rooms dl st) (cid : String)
    (hscan : scanMin st.dist st.unvisited = some cid) (hcend : cid ≠ endRoom.id)
    (rcid : Room) (hfc : rooms.find? (fun t => t.id = cid) = some rcid) :
    DInvW start endRoom rooms (dl ++ [cid])
      (relaxAll rcid cid rooms ⟨st.dist, st.prev, st.unvisited.erase cid⟩) := by
  obtain ⟨hcu, hcne, hcmin⟩ := scanMin_spec st.dist st.unvisited cid hscan
  have hcids : cid ∈ rooms.map Room.id := ((inv.unvisited_iff cid).mp hcu).1
  have hcdl : cid ∉ dl := ((inv.unvisited_iff cid).mp hcu).2
  have hcerase : cid ∉ st.unvisited.erase cid :=
    fun h => (inv.unvisited_nodup.mem_erase_iff.mp h).1 rfl
  have hw : ∀ r1 r2 : Room, (0 : WithTop ℝ) ≤ ((calculateDistance r1 r2 : ℝ) : WithTop ℝ) := by
    intro r1 r2
    exact_mod_cast calculateDistance_nonneg r1 r2
  obtain ⟨hFu, hFc, hFy, hFub, hFm⟩ := relaxFold_spec rcid cid rooms rcid.connections
    ⟨st.dist, st.prev, st.unvisited.erase cid⟩ hcerase
  simp only [] at hFu hFc hFy hFub hFm
  rw [relaxAll]
  set F := rcid.connections.foldl (relaxOne rcid cid rooms)
    (⟨st.dist, st.prev, st.unvisited.erase cid⟩ : DState) with hFdef
  have hunch : ∀ x, x ∉ st.unvisited.erase cid →
      F.dist x = st.dist x ∧ F.prev x = st.prev x := by
    intro x hx
    rcases hFy x with ⟨h1, h2⟩ | ⟨_, hxu, _⟩
    · exact ⟨h1, h2⟩
    · exact absurd hxu hx
  have hdl_unch : ∀ x ∈ dl, F.dist x = st.dist x ∧ F.prev x = st.prev x := by
    intro x hx
    apply hunch
    intro hmem
    exact ((inv.unvisited_iff x).mp (List.mem_of_mem_erase hmem)).2 hx
  have hcid_prev : F.prev cid = st.prev cid := (hunch cid hcerase).2
  have hend' : endRoom.id ∉ dl ++ [cid] := by
    intro h
    rcases List.mem_append.mp h with h1 | h1
    · exact inv.no_settled_end h1
    · exact hcend (List.mem_singleton.mp h1).symm
  have hnodup' : (dl ++ [cid]).Nodup := by
    rw [List.nodup_append]
    refine ⟨inv.dl_nodup, List.nodup_singleton cid, ?_⟩
    intro a ha hb
    rw [List.mem_singleton] at hb
    exact hcdl (hb ▸ ha)
  refine ⟨hnodup', ?_, ?_, ?_, hend', ?_, ?_, ?_, ?_, ?_, ?_, ?_, ?_, ?_, ?_⟩
  · -- dl_ids
    intro x hx
    rcases List.mem_append.mp hx with h1 | h1
    · exact inv.dl_ids x h1
    · rw [List.mem_singleton] at h1
      exact h1 ▸ hcids
  · -- unvisited_iff
    intro x
    rw [hFu, inv.unvisited_nodup.mem_erase_iff, inv.unvisited_iff x]
    simp only [List.mem_append, List.mem_singleton, not_or]
    tauto
  · -- unvisited_nodup
    rw [hFu]
    exact List.Nodup.erase cid inv.unvisited_nodup
  · -- junk_top
    intro x hx
    have hxe : x ∉ st.unvisited.erase cid :=
      fun hm => hx ((inv.unvisited_iff x).mp (List.mem_of_mem_erase hm)).1
    rw [(hunch x hxe).1]
    exact inv.junk_top x hx
  · -- dist_nonneg
    intro x
    rcases hFy x with ⟨h1, _⟩ | ⟨_, _, ry, _, hd, _, _⟩
    · rw [h1]
      exact inv.dist_nonneg x
    · rw [hd]
      exact add_nonneg (inv.dist_nonneg cid) (hw rcid ry)
  · -- start_dist
    rcases hFy start.id with ⟨h1, _⟩ | ⟨_, _, ry, _, hd, _, hlt⟩
    · rw [h1]
      exact inv.start_dist
    · exfalso
      have hnn : (0 : WithTop ℝ) ≤ F.dist start.id := by
        rw [hd]
        exact add_nonneg (inv.dist_nonneg cid) (hw rcid ry)
      rw [inv.start_dist] at hlt
      exact absurd (lt_of_le_of_lt hnn hlt) (lt_irrefl 0)
  · -- start_prev
    rcases hFy start.id with ⟨_, h2⟩ | ⟨_, _, ry, _, hd, _, hlt⟩
    · rw [h2]
      exact inv.start_prev
    · exfalso
      have hnn : (0 : WithTop ℝ) ≤ F.dist start.id := by
        rw [hd]
        exact add_nonneg (inv.dist_nonneg cid) (hw rcid ry)
      rw [inv.start_dist] at hlt
      exact absurd (lt_of_le_of_lt hnn hlt) (lt_irrefl 0)
  · -- settled
    intro x hx
    rcases List.mem_append.mp hx with h1 | h1
    · obtain ⟨r, c, hf, hdx, hl⟩ := inv.settled x h1
      exact ⟨r, c, hf, by rw [(hdl_unch x h1).1]; exact hdx, hl⟩
    · rw [List.mem_singleton] at h1
      subst h1
      obtain ⟨c, hc, hleast⟩ :=
        dinv_select start endRoom rooms dl st hnd hs inv x hscan rcid hfc
      exact ⟨rcid, c, hfc, by rw [hFc]; exact hc, hleast⟩
  · -- settled_le
    intro x hx y hy
    have hy1 : y ∉ dl := fun h => hy (List.mem_append_left _ h)
    have hy2 : y ≠ cid := fun h => hy (by rw [h]; exact List.mem_append_right _ (by simp))
    rcases List.mem_append.mp hx with h1 | h1
    · rw [(hdl_unch x h1).1]
      rcases hFy y with ⟨hdy, _⟩ | ⟨_, _, ry, _, hd, _, _⟩
      · rw [hdy]
        exact inv.settled_le x h1 y hy1
      · rw [hd]
        exact le_trans (inv.settled_le x h1 cid hcdl) (le_add_of_nonneg_right (hw rcid ry))
    · rw [List.mem_singleton] at h1
      subst h1
      rw [hFc]
      rcases hFy y with ⟨hdy, _⟩ | ⟨_, _, ry, _, hd, _, _⟩
      · rw [hdy]
        by_cases hyid : y ∈ rooms.map Room.id
        · exact hcmin y ((inv.unvisited_iff y).mpr ⟨hyid, hy1⟩)
        · rw [inv.junk_top y hyid]
          exact le_top
      · rw [hd]
        exact le_add_of_nonneg_right (hw rcid ry)
  · -- frontier_lb
    intro u hu y hy ru ry hfru hfry hconn
    have hy1 : y ∉ dl := fun h => hy (List.mem_append_left _ h)
    have hy2 : y ≠ cid := fun h => hy (by rw [h]; exact List.mem_append_right _ (by simp))
    rcases List.mem_append.mp hu with hu1 | hu1
    · rw [(hdl_unch u hu1).1]
      exact le_trans (hFm y) (inv.frontier_lb u hu1 y hy1 ru ry hfru hfry hconn)
    · rw [List.mem_singleton] at hu1
      have hu2 : cid = u := hu1.symm
      subst hu2
      rw [hfc] at hfru
      have hruc : rcid = ru := Option.some.inj hfru
      subst hruc
      rw [hFc]
      obtain ⟨hrymem, hryid⟩ := find?_id_props rooms y ry hfry
      have hyids : y ∈ rooms.map Room.id := List.mem_map.mpr ⟨ry, hrymem, hryid⟩
      have hyu : y ∈ st.unvisited := (inv.unvisited_iff y).mpr ⟨hyids, hy1⟩
      have hyerase : y ∈ st.unvisited.erase cid :=
        inv.unvisited_nodup.mem_erase_iff.mpr ⟨hy2, hyu⟩
      exact hFub y hconn ry hyerase hfry
  · -- frontier_at
    intro y hy
    have hy1 : y ∉ dl := fun h => hy (List.mem_append_left _ h)
    rcases hFy y with ⟨hdy, _⟩ | ⟨hymem, hyu, ry, hfy, hd, hp, hlt⟩
    · rcases inv.frontier_at y hy1 with h1 | h1 | ⟨u, hu, ru, ry, hfu, hfy, hconn, heq⟩
      · exact Or.inl (by rw [hdy]; exact h1)
      · exact Or.inr (Or.inl ⟨h1.1, by rw [hdy]; exact h1.2⟩)
      · refine Or.inr (Or.inr ⟨u, List.mem_append_left _ hu, ru, ry, hfu, hfy, hconn, ?_⟩)
        rw [hdy, (hdl_unch u hu).1]
        exact heq
    · refine Or.inr (Or.inr ⟨cid, List.mem_append_right _ (by simp), rcid, ry, hfc, hfy,
        hymem, ?_⟩)
      rw [hd, hFc]
  · -- prev_some
    intro x u hpx
    rcases hFy x with ⟨hdx, hpxu⟩ | ⟨hxmem, hxu, ry, hfy, hd, hp, hlt⟩
    · rw [hpxu] at hpx
      obtain ⟨hudl, hxs, ru, rx, hfu, hfx, hconn, heq, hidx⟩ := inv.prev_some x u hpx
      refine ⟨List.mem_append_left _ hudl, hxs, ru, rx, hfu, hfx, hconn, ?_, ?_⟩
      · rw [hdx, (hdl_unch u hudl).1]
        exact heq
      · intro hxdl'
        rcases List.mem_append.mp hxdl' with h1 | h1
        · rw [List.indexOf_append_of_mem hudl, List.indexOf_append_of_mem h1]
          exact hidx h1
        · rw [List.mem_singleton] at h1
          subst h1
          rw [List.indexOf_append_of_mem hudl, List.indexOf_append_of_not_mem hcdl]
          have hlt2 : List.indexOf u dl < dl.length := List.indexOf_lt_length.mpr hudl
          simpa using hlt2
    · rw [hp] at hpx
      have huc : cid = u := Option.some.inj hpx
      subst huc
      have hxne : x ≠ cid := (inv.unvisited_nodup.mem_erase_iff.mp hxu).1
      have hxunv : x ∈ st.unvisited := List.mem_of_mem_erase hxu
      have hxdl : x ∉ dl := ((inv.unvisited_iff x).mp hxunv).2
      refine ⟨List.mem_append_right _ (by simp), ?_, rcid, ry, hfc, hfy, hxmem, ?_, ?_⟩
      · intro hxs
        have hnn : (0 : WithTop ℝ) ≤ F.dist x := by
          rw [hd]
          exact add_nonneg (inv.dist_nonneg cid) (hw rcid ry)
        rw [hxs] at hlt hnn
        rw [inv.start_dist] at hlt
        exact absurd (lt_of_le_of_lt hnn hlt) (lt_irrefl 0)
      · rw [hd, hFc]
      · intro hxdl'
        exfalso
        rcases List.mem_append.mp hxdl' with h1 | h1
        · exact hxdl h1
        · exact hxne (List.mem_singleton.mp h1)
  · -- prev_none
    intro x hpx
    rcases hFy x with ⟨hdx, hpxu⟩ | ⟨_, _, ry, _, hd, hp, _⟩
    · rw [hpxu] at hpx
      rcases inv.prev_none x hpx with h1 | h1
      · exact Or.inl h1
      · exact Or.inr (by rw [hdx]; exact h1)
    · rw [hp] at hpx
      exact Option.noConfusion hpx

theorem dijkstraLoop_inv (start endRoom : Room) (rooms : List Room)
    (hnd : (rooms.map Room.id).Nodup) (hs : start ∈ rooms) :
    ∀ (fuel : ℕ) (st : DState) (dl : List String),
      DInvW start endRoom rooms dl st →
      (∃ dl2, DInvW start endRoom rooms dl2 (dijkstraLoop endRoom.id rooms fuel st)) ∧
      (st.unvisited.length < fuel →
        scanMin (dijkstraLoop endRoom.id rooms fuel st).dist
            (dijkstraLoop endRoom.id rooms fuel st).unvisited = none ∨
          scanMin (dijkstraLoop endRoom.id rooms fuel st).dist
            (dijkstraLoop endRoom.id rooms fuel st).unvisited = some endRoom.id) := by
  intro fuel
  induction fuel with
  | zero =>
      intro st dl inv
      rw [dijkstraLoop]
      exact ⟨⟨dl, inv⟩, fun h => absurd h (Nat.not_lt_zero _)⟩
  | succ n ih =>
      intro st dl inv
      rw [dijkstraLoop]
      by_cases hemp : st.unvisited = []
      · rw [if_pos hemp]
        refine ⟨⟨dl, inv⟩, fun h => Or.inl ?_⟩
        rw [hemp]
        rfl
      · rw [if_neg hemp]
        rcases hscan : scanMin st.dist st.unvisited with _ | cid
        · exact ⟨⟨dl, inv⟩, fun h => Or.inl hscan⟩
        · simp only []
          by_cases hcend : cid = endRoom.id
          · rw [if_pos hcend]
            refine ⟨⟨dl, inv⟩, fun h => Or.inr ?_⟩
            rw [hcend] at hscan
            exact hscan
          · rw [if_neg hcend]
            obtain ⟨hcu, hcne, hcmin⟩ := scanMin_spec st.dist st.unvisited cid hscan
            have hcids : cid ∈ rooms.map Room.id := ((inv.unvisited_iff cid).mp hcu).1
            obtain ⟨rcid, hfc⟩ := find?_id_exists rooms cid hcids
            rw [hfc]
            simp only []
            have hstep := dinv_step start endRoom rooms dl st hnd hs inv cid hscan hcend
              rcid hfc
            obtain ⟨hres, hbreak⟩ := ih
              (relaxAll rcid cid rooms ⟨st.dist, st.prev, st.unvisited.erase cid⟩)
              (dl ++ [cid]) hstep
            refine ⟨hres, ?_⟩
            intro hlen
            apply hbreak
            have hcerase : cid ∉ st.unvisited.erase cid :=
              fun h2 => (inv.unvisited_nodup.mem_erase_iff.mp h2).1 rfl
            have hueq : (relaxAll rcid cid rooms
                ⟨st.dist, st.prev, st.unvisited.erase cid⟩).unvisited =
                st.unvisited.erase cid := by
              rw [relaxAll]
              exact (relaxFold_spec rcid cid rooms rcid.connections
                ⟨st.dist, st.prev, st.unvisited.erase cid⟩ hcerase).1
            rw [hueq, List.length_erase_of_mem hcu]
            have hpos : 0 < st.unvisited.length := List.length_pos.mpr hemp
            omega

theorem reconstruct_spec (start endRoom : Room) (rooms : List Room)
    (hnd : (rooms.map Room.id).Nodup) (hs : start ∈ rooms)
    (hne : ∀ r ∈ rooms, r.id ≠ "") (dl : List String) (stF : DState)
    (inv : DInvW start endRoom rooms dl stF) :
    ∀ (fuel : ℕ) (x : String) (rx : Room) (acc : List Room),
      rooms.find? (fun t => t.id = x) = some rx → stF.dist x ≠ ⊤ →
      (if x ∈ dl then List.indexOf x dl else dl.length) < fuel →
      ∃ p, reconstructPath rooms stF.prev fuel (some x) acc = p ++ acc ∧
        IsConnPath rooms start rx p ∧
        ((pathCost p : ℝ) : WithTop ℝ) = stF.dist x := by
  intro fuel
  induction fuel with
  | zero => exact fun x rx acc hfx hdx hm => absurd hm (Nat.not_lt_zero _)
  | succ n ih =>
      intro x rx acc hfx hdx hm
      obtain ⟨hrxmem, hrxid⟩ := find?_id_props rooms x rx hfx
      have hxne : x ≠ "" := hrxid ▸ hne rx hrxmem
      rw [reconstructPath, if_neg hxne, hfx]
      simp only []
      rcases hpx : stF.prev x with _ | u
      · rcases inv.prev_none x hpx with hxs | hxt
        · have hfs : rooms.find? (fun t => t.id = start.id) = some start :=
            find?_of_mem_nodup rooms hnd start hs
          have hrx : rx = start := by
            rw [hxs] at hfx
            rw [hfx] at hfs
            exact Option.some.inj hfs
          refine ⟨[rx], ?_, ?_, ?_⟩
          · cases n with
            | zero => rfl
            | succ m => rfl
          · rw [hrx]
            exact connPath_singleton rooms start hs
          · rw [hxs, inv.start_dist, pathCost]
            simp
        · exact absurd hxt hdx
      · obtain ⟨hudl, hxs, ru, rx', hfu, hfx', hconn, heq, hidx⟩ := inv.prev_some x u hpx
        have hrx2 : rx = rx' := by
          rw [hfx] at hfx'
          exact Option.some.inj hfx'
        subst hrx2
        obtain ⟨ru2, cu, hfu2, hdu, hleast⟩ := inv.settled u hudl
        have hru2 : ru = ru2 := by
          rw [hfu] at hfu2
          exact Option.some.inj hfu2
        subst hru2
        have hdune : stF.dist u ≠ ⊤ := by
          rw [hdu]
          exact WithTop.coe_ne_top
        have hmu : (if u ∈ dl then List.indexOf u dl else dl.length) < n := by
          rw [if_pos hudl]
          by_cases hxdl : x ∈ dl
          · have h1 := hidx hxdl
            rw [if_pos hxdl] at hm
            omega
          · rw [if_neg hxdl] at hm
            have h2 : List.indexOf u dl < dl.length := List.indexOf_lt_length.mpr hudl
            omega
        obtain ⟨pu, hpu_eq, hpu_conn, hpu_cost⟩ := ih u ru (rx :: acc) hfu hdune hmu
        refine ⟨pu ++ [rx], ?_, ?_, ?_⟩
        · rw [hpu_eq]
          simp
        · exact connPath_extend rooms start ru rx pu hpu_conn hrxmem
            (by rw [hrxid]; exact hconn)
        · have hlastu : pu.getLast? = some ru := hpu_conn.2.2.1
          rw [pathCost_concat pu ru rx hlastu, WithTop.coe_add, hpu_cost, heq]

theorem dijkstraSearch_optimal (start endRoom : Room) (rooms : List Room)
    (hnd : (rooms.map Room.id).Nodup) (hs : start ∈ rooms) (he : endRoom ∈ rooms)
    (hne : ∀ r ∈ rooms, r.id ≠ "")
    (hpath : ∃ p, IsConnPath rooms start endRoom p) :
    IsConnPath rooms start endRoom (dijkstraSearch start endRoom rooms) ∧
      IsLeast (distSet rooms start endRoom)
        (pathCost (dijkstraSearch start endRoom rooms)) := by
  obtain ⟨⟨dlF, invF⟩, hbrk⟩ := dijkstraLoop_inv start endRoom rooms hnd hs
    ((setAddList (rooms.map Room.id)).length + 1) (initState start.id rooms) []
    (dinv_init start endRoom rooms hs)
  have heids : endRoom.id ∈ rooms.map Room.id := List.mem_map_of_mem Room.id he
  have hendunv : endRoom.id ∈
      (dijkstraLoop endRoom.id rooms ((setAddList (rooms.map Room.id)).length + 1)
        (initState start.id rooms)).unvisited :=
    (invF.unvisited_iff _).mpr ⟨heids, invF.no_settled_end⟩
  rcases hbrk (Nat.lt_succ_self _) with hnone | hsome
  · exfalso
    have hall := scanMin_none _ _ hnone
    obtain ⟨p, hp⟩ := hpath
    rcases split_first_not (fun r => r.id ∈ dlF) p with hallp | ⟨p1, y, p2, hpe, hallp1, hy⟩
    · exact invF.no_settled_end (hallp endRoom (List.mem_of_getLast?_eq_some hp.2.2.1))
    · subst hpe
      have hymem : y ∈ rooms := hp.2.2.2.1 y (by simp)
      have hyids : y.id ∈ rooms.map Room.id := List.mem_map_of_mem Room.id hymem
      have hyunv : y.id ∈
          (dijkstraLoop endRoom.id rooms ((setAddList (rooms.map Room.id)).length + 1)
            (initState start.id rooms)).unvisited :=
        (invF.unvisited_iff _).mpr ⟨hyids, hy⟩
      have hdy := hall y.id hyunv
      cases p1 with
      | nil =>
          have hh := hp.2.1
          simp at hh
          rw [hh, invF.start_dist] at hdy
          exact WithTop.zero_ne_top hdy
      | cons a t =>
          have hne1 : (a :: t) ≠ ([] : List Room) := by simp
          obtain ⟨u, hu⟩ : ∃ u, (a :: t).getLast? = some u :=
            ⟨(a :: t).getLast hne1, List.getLast?_eq_getLast_of_ne_nil hne1⟩
          have humem : u ∈ rooms :=
            hp.2.2.2.1 u (List.mem_append_left _ (List.mem_of_getLast?_eq_some hu))
          have hudl : u.id ∈ dlF := hallp1 u (List.mem_of_getLast?_eq_some hu)
          have hfu : rooms.find? (fun t2 => t2.id = u.id) = some u :=
            find?_of_mem_nodup rooms hnd u humem
          have hfy : rooms.find? (fun t2 => t2.id = y.id) = some y :=
            find?_of_mem_nodup rooms hnd y hymem
          obtain ⟨hpy, hjun⟩ := connPath_split rooms start endRoom y (a :: t) p2 hp
          have hedge : y.id ∈ u.connections := hjun u hu
          have hflb := invF.frontier_lb u.id hudl y.id hy u y hfu hfy hedge
          obtain ⟨ru2, cu, hfu2, hdu, hleast⟩ := invF.settled u.id hudl
          rw [hdy, hdu] at hflb
          have h2 := top_le_iff.mp hflb
          rw [← WithTop.coe_add] at h2
          exact WithTop.coe_ne_top h2
  · have hfend : rooms.find? (fun t => t.id = endRoom.id) = some endRoom :=
      find?_of_mem_nodup rooms hnd endRoom he
    obtain ⟨c, hc, hleast⟩ := dinv_select start endRoom rooms dlF _ hnd hs invF
      endRoom.id hsome endRoom hfend
    have hdne : (dijkstraLoop endRoom.id rooms
        ((setAddList (rooms.map Room.id)).length + 1)
        (initState start.id rooms)).dist endRoom.id ≠ ⊤ := by
      rw [hc]
      exact WithTop.coe_ne_top
    have hdllen : dlF.length ≤ rooms.length := by
      have h1 : dlF.length = dlF.toFinset.card :=
        (List.toFinset_card_of_nodup invF.dl_nodup).symm
      have h2 : dlF.toFinset ⊆ (rooms.map Room.id).toFinset := by
        intro z hz
        rw [List.mem_toFinset] at hz ⊢
        exact invF.dl_ids z hz
      have h3 := Finset.card_le_card h2
      have h4 : (rooms.map Room.id).toFinset.card ≤ (rooms.map Room.id).length :=
        List.toFinset_card_le _
      rw [List.length_map] at h4
      omega
    have hmeas : (if endRoom.id ∈ dlF then List.indexOf endRoom.id dlF
        else dlF.length) < rooms.length + 2 := by
      rw [if_neg invF.no_settled_end]
      omega
    obtain ⟨p, hpeq, hpconn, hpcost⟩ := reconstruct_spec start endRoom rooms hnd hs hne
      dlF _ invF (rooms.length + 2) endRoom.id endRoom [] hfend hdne hmeas
    have hsearch : dijkstraSearch start endRoom rooms = p := by
      rw [dijkstraSearch, hpeq]
      simp
    have hcost : pathCost p = c := by
      rw [hc] at hpcost
      exact_mod_cast hpcost
    rw [hsearch]
    exact ⟨hpconn, hcost ▸ hleast⟩

/-- C2 amended: on a well-formed working list (duplicate-free nonempty ids that
include both endpoints as given), when both endpoints list at least one
connection and some connection path joins them, `getShortestPath` returns a
connection path from start to destination whose total Euclidean length
(`pathCost`, the sum of `calculateDistance` over consecutive pairs — so every
edge weight used is exactly the Euclidean distance between endpoint positions)
is the least over all connection paths; `claim_C2_counterexample` shows the
well-formedness cannot be dropped: an empty-string id defeats the
reconstruction loop's JS truthiness check and the result is not optimal. -/
theorem claim_C2_amended (start endRoom : Room) (allRooms : List Room)
    (hnd : ((workingRooms start endRoom allRooms).map Room.id).Nodup)
    (hs : start ∈ workingRooms start endRoom allRooms)
    (he : endRoom ∈ workingRooms start endRoom allRooms)
    (hne : ∀ r ∈ workingRooms start endRoom allRooms, r.id ≠ "")
    (hcs : start.connections ≠ []) (hce : endRoom.connections ≠ [])
    (hpath : ∃ p, IsConnPath (workingRooms start endRoom allRooms) start endRoom p) :
    IsConnPath (workingRooms start endRoom allRooms) start endRoom
        (getShortestPath start endRoom allRooms) ∧
      IsLeast (distSet (workingRooms start endRoom allRooms) start endRoom)
        (pathCost (getShortestPath start endRoom allRooms)) := by
  obtain ⟨hconn, hopt⟩ := dijkstraSearch_optimal start endRoom
    (workingRooms start endRoom allRooms) hnd hs he hne hpath
  have hgsp : getShortestPath start endRoom allRooms =
      dijkstraSearch start endRoom (workingRooms start endRoom allRooms) := by
    rw [getShortestPath, if_neg (not_or.mpr ⟨hcs, hce⟩)]
    obtain ⟨hne0, hhead, -, -, -⟩ := hconn
    rcases hd : dijkstraSearch start endRoom (workingRooms start endRoom allRooms)
      with _ | ⟨r, tl⟩
    · exact absurd hd hne0
    · rw [hd] at hhead
      simp at hhead
      simp only []
      rw [if_pos (show r.id = start.id from by rw [hhead])]
  rw [hgsp]
  exact ⟨hconn, hopt⟩

theorem eval_gridPath1_C2 : gridPath1 exS2 exE2 [exS2, exE2] [] = [exS2, exVH2] := by
  rw [gridPath1]
  norm_num [gridWaypointNear, horizontalBlocked, findNearestWaypoint, exS2, exE2, exVH2]
  rfl

theorem eval_gridPath2_C2 :
    gridPath2 exS2 exE2 [exS2, exE2] [] [exS2, exVH2] = [exS2, exVH2, exVV2] := by
  rw [gridPath2]
  norm_num [gridWaypointNear, verticalBlocked, exS2, exE2, exVH2, exVV2]
  rfl

theorem eval_grid_C2 : createGridBasedPath exS2 exE2 [exS2, exE2] =
    [exS2, exVH2, exVV2, exE2] := by
  have hw : gridWaypoints [exS2, exE2] = [] := rfl
  rw [createGridBasedPath, gridLegs, hw, eval_gridPath1_C2, eval_gridPath2_C2]
  norm_num [exVV2, exE2]
  simp

theorem eval_loop_C2 : dijkstraLoop "b" [exS2, exE2] 3 (initState "" [exS2, exE2]) =
    ⟨fun i => if i = "b" then
        (initState "" [exS2, exE2]).dist "" + (calculateDistance exS2 exE2 : WithTop ℝ)
      else (initState "" [exS2, exE2]).dist i,
     fun i => if i = "b" then some "" else (initState "" [exS2, exE2]).prev i,
     ["b"]⟩ := by
  have hscan1 : scanMin (initState "" [exS2, exE2]).dist
      (initState "" [exS2, exE2]).unvisited = some "" := by
    have hu : (initState "" [exS2, exE2]).unvisited = ["", "b"] := by
      simp [initState, setAddList, exS2, exE2]
    rw [hu]
    exact scanMin_init "" ["", "b"] (by simp)
  have hfb : List.find? (fun r => decide (r.id = "b")) [exS2, exE2] = some exE2 := by
    simp [exS2, exE2]
  have hlt : (initState "" [exS2, exE2]).dist "" +
      (calculateDistance exS2 exE2 : WithTop ℝ) <
      (initState "" [exS2, exE2]).dist "b" := by
    simp [initState]
  have ha : relaxOne exS2 "" [exS2, exE2]
      ⟨(initState "" [exS2, exE2]).dist, (initState "" [exS2, exE2]).prev, ["b"]⟩ "b" =
      ⟨fun i => if i = "b" then
          (initState "" [exS2, exE2]).dist "" + (calculateDistance exS2 exE2 : WithTop ℝ)
        else (initState "" [exS2, exE2]).dist i,
       fun i => if i = "b" then some "" else (initState "" [exS2, exE2]).prev i,
       ["b"]⟩ := by
    rw [relaxOne, if_pos (by simp)]
    simp only [hfb]
    rw [if_pos hlt]
  have hrelax : relaxAll exS2 "" [exS2, exE2]
      ⟨(initState "" [exS2, exE2]).dist, (initState "" [exS2, exE2]).prev, ["b"]⟩ =
      ⟨fun i => if i = "b" then
          (initState "" [exS2, exE2]).dist "" + (calculateDistance exS2 exE2 : WithTop ℝ)
        else (initState "" [exS2, exE2]).dist i,
       fun i => if i = "b" then some "" else (initState "" [exS2, exE2]).prev i,
       ["b"]⟩ := by
    rw [relaxAll]
    simp only [show exS2.connections = ["b"] from rfl, List.foldl_cons, List.foldl_nil]
    rw [ha]
  rw [dijkstraLoop, if_neg (by simp [initState, setAddList, exS2, exE2])]
  simp only [hscan1]
  have hu : (initState "" [exS2, exE2]).unvisited = ["", "b"] := by
    simp [initState, setAddList, exS2, exE2]
  rw [if_neg (by simp : ¬("" : String) = "b"), hu]
  have herase : (["", "b"] : List String).erase "" = ["b"] := by simp [List.erase_cons]
  rw [herase]
  have hfe : List.find? (fun r => decide (r.id = "")) [exS2, exE2] = some exS2 := by
    simp [exS2, exE2]
  simp only [hfe]
  rw [hrelax]
  have hscan2 : scanMin (fun i => if i = "b" then
      (initState "" [exS2, exE2]).dist "" + (calculateDistance exS2 exE2 : WithTop ℝ)
      else (initState "" [exS2, exE2]).dist i) ["b"] = some "b" := by
    simp [scanMin, scanFold, initState]
  rw [dijkstraLoop, if_neg (by simp), hscan2]
  simp

theorem eval_gsp_C2 : getShortestPath exS2 exE2 [exS2, exE2] =
    [exS2, exVH2, exVV2, exE2] := by
  have hwr : workingRooms exS2 exE2 [exS2, exE2] = [exS2, exE2] := by
    simp [workingRooms, exS2, exE2]
  rw [getShortestPath, if_neg (by simp [exS2, exE2])]
  have hsa : setAddList (([exS2, exE2] : List Room).map Room.id) = ["", "b"] := by
    simp [setAddList, exS2, exE2]
  have hds : dijkstraSearch exS2 exE2 (workingRooms exS2 exE2 [exS2, exE2]) = [exE2] := by
    rw [hwr, dijkstraSearch]
    rw [show exE2.id = "b" from rfl, show exS2.id = "" from rfl, hsa]
    rw [show (["", "b"] : List String).length + 1 = 3 from rfl]
    rw [eval_loop_C2]
    simp [reconstructPath, initState, exS2, exE2]
  rw [hds]
  simp only []
  rw [if_neg (by simp [exS2, exE2])]
  exact eval_grid_C2

/-- C2 counterexample: both endpoints have connections and the direct
connection path `[exS2, exE2]` exists, yet `getShortestPath` does not return a
path of minimal Euclidean length.  The start id is the empty string, which the
reconstruction loop treats as falsy (JS truthiness), so the reconstructed path
`[exE2]` fails the head check and the engine falls back to the grid
synthesizer, whose L-shaped path of length 180 exceeds the direct edge of
length sqrt 16400. -/
theorem claim_C2_counterexample :
    exS2.connections ≠ [] ∧ exE2.connections ≠ [] ∧
    IsConnPath (workingRooms exS2 exE2 [exS2, exE2]) exS2 exE2 [exS2, exE2] ∧
    getShortestPath exS2 exE2 [exS2, exE2] = [exS2, exVH2, exVV2, exE2] ∧
    pathCost [exS2, exE2] < pathCost (getShortestPath exS2 exE2 [exS2, exE2]) := by
  have hwr : workingRooms exS2 exE2 [exS2, exE2] = [exS2, exE2] := by
    simp [workingRooms, exS2, exE2]
  have hd1 : distSq exS2 exE2 = 16400 := by norm_num [distSq, exS2, exE2]
  have h1 : pathCost [exS2, exE2] = Real.sqrt 16400 := by
    rw [pathCost_cons_cons, pathCost, calculateDistance_eq_sqrt_distSq, hd1]
    norm_num
  have h2 : pathCost [exS2, exVH2, exVV2, exE2] = 180 := by
    rw [pathCost_cons_cons, pathCost_cons_cons, pathCost_cons_cons, pathCost,
      calculateDistance_eq_sqrt_distSq, calculateDistance_eq_sqrt_distSq,
      calculateDistance_eq_sqrt_distSq]
    have ha : distSq exS2 exVH2 = 10000 := by norm_num [distSq, exS2, exVH2]
    have hb : distSq exVH2 exVV2 = 6400 := by norm_num [distSq, exVH2, exVV2]
    have hc : distSq exVV2 exE2 = 0 := by norm_num [distSq, exVV2, exE2]
    rw [ha, hb, hc]
    have s1 : Real.sqrt ((10000 : ℚ) : ℝ) = 100 := by
      rw [show ((10000 : ℚ) : ℝ) = (100 : ℝ) ^ 2 by norm_num]
      exact Real.sqrt_sq (by norm_num)
    have s2 : Real.sqrt ((6400 : ℚ) : ℝ) = 80 := by
      rw [show ((6400 : ℚ) : ℝ) = (80 : ℝ) ^ 2 by norm_num]
      exact Real.sqrt_sq (by norm_num)
    have s3 : Real.sqrt ((0 : ℚ) : ℝ) = 0 := by simp
    rw [s1, s2, s3]
    norm_num
  refine ⟨by simp [exS2], by simp [exE2], ?_, eval_gsp_C2, ?_⟩
  · refine ⟨by simp, rfl, rfl, ?_, ?_⟩
    · intro r hr
      rw [hwr]
      exact hr
    · exact List.chain'_cons.mpr ⟨by simp [exS2, exE2], List.chain'_singleton _⟩
  · rw [eval_gsp_C2, h1, h2]
    rw [Real.sqrt_lt (by norm_num) (by norm_num)]
    norm_num

/-- C2 witness graph facts: on the two-node graph `[exWS, exWE]` with edges in
both directions and distinct nonempty ids, all hypotheses of the amended
optimality theorem hold and `getShortestPath` attains the least connection
path cost. -/
theorem claim_C2_amended_witness :
    exWS.connections ≠ [] ∧ exWE.connections ≠ [] ∧
    IsConnPath (workingRooms exWS exWE [exWS, exWE]) exWS exWE [exWS, exWE] ∧
    IsLeast (distSet (workingRooms exWS exWE [exWS, exWE]) exWS exWE)
      (pathCost (getShortestPath exWS exWE [exWS, exWE])) := by
  have hW : workingRooms exWS exWE [exWS, exWE] = [exWS, exWE] := rfl
  have hpath : IsConnPath (workingRooms exWS exWE [exWS, exWE]) exWS exWE
      [exWS, exWE] := by
    refine ⟨by simp, rfl, rfl, ?_, ?_⟩
    · intro r hr
      rw [hW]
      exact hr
    · exact List.chain'_cons.mpr ⟨by simp [exWS, exWE], List.chain'_singleton _⟩
  have hnd : ((workingRooms exWS exWE [exWS, exWE]).map Room.id).Nodup := by
    rw [hW]
    simp [exWS, exWE]
  have hs : exWS ∈ workingRooms exWS exWE [exWS, exWE] := by
    rw [hW]
    exact List.mem_cons_self _ _
  have he : exWE ∈ workingRooms exWS exWE [exWS, exWE] := by
    rw [hW]
    exact List.mem_cons_of_mem _ (List.mem_cons_self _ _)
  have hne : ∀ r ∈ workingRooms exWS exWE [exWS, exWE], r.id ≠ "" := by
    intro r hr
    rw [hW] at hr
    rcases List.mem_cons.mp hr with h | h
    · rw [h]
      simp [exWS]
    · rw [List.mem_singleton.mp h]
      simp [exWE]
  refine ⟨by simp [exWS], by simp [exWE], hpath, ?_⟩
  exact (claim_C2_amended exWS exWE [exWS, exWE] hnd hs he hne
    (by simp [exWS]) (by simp [exWE]) ⟨[exWS, exWE], hpath⟩).2

end KPRCampusMap
